import Mathlib

/-! # LC-3 virtual machine (`vm.c`): shallow embedding and verified properties

The C program keeps its whole state in two global arrays, `memory[65536]` and
`reg[10]`, both of `uint16_t`, plus the local `running` flag of `main`.  The
embedding passes that state explicitly as a value of `VM`.  A `uint16_t` is a
natural number below `65536`; every assignment to a `uint16_t` object is written
with an explicit `% 65536`, which is what the C conversion does.

Standard output is modelled as the list of bytes written so far.  Standard
input is the list of bytes not yet returned by `getchar`, in stream order,
together with the number of leading bytes that already sit in the stdio buffer
of `stdin` and a flag telling whether descriptor 0 is at end of file once its
bytes are read: `getchar` reads through the buffer, `check_key` asks `select`
about the descriptor.  The host is taken to be
little-endian with a signed `char` and a 32-bit `int` (x86-64), which is what
the byte swap in the loader presupposes.

The loop body of `main` is split in two: `fetch` is the statement
`instr = memRead(reg[R_PC]++)`, and `execute` is the `switch` on the opcode,
run in the state the fetch leaves behind.  An instruction "fetched from address
`a`" is therefore executed in a state whose program counter is
`(a + 1) % 65536`.
-/

namespace LC3

/-! ## Constants of `vm.c` -/

def MEMORY_MAX : Nat := 65536

def R_R0 : Nat := 0
def R_R7 : Nat := 7
def R_PC : Nat := 8
def R_COND : Nat := 9
def R_COUNT : Nat := 10

def OP_BR : Nat := 0
def OP_ADD : Nat := 1
def OP_LD : Nat := 2
def OP_ST : Nat := 3
def OP_JSR : Nat := 4
def OP_AND : Nat := 5
def OP_LDR : Nat := 6
def OP_STR : Nat := 7
def OP_RTI : Nat := 8
def OP_NOT : Nat := 9
def OP_LDI : Nat := 10
def OP_STI : Nat := 11
def OP_JMP : Nat := 12
def OP_RES : Nat := 13
def OP_LEA : Nat := 14
def OP_TRAP : Nat := 15

def FL_POS : Nat := 1
def FL_ZRO : Nat := 2
def FL_NEG : Nat := 4

def TRAP_GETC : Nat := 0x20
def TRAP_OUT : Nat := 0x21
def TRAP_PUTS : Nat := 0x22
def TRAP_IN : Nat := 0x23
def TRAP_PUTSP : Nat := 0x24
def TRAP_HALT : Nat := 0x25

def MR_KBSR : Nat := 0xFE00
def MR_KBDR : Nat := 0xFE02

/-! ## Machine state -/

/-- How the process stands: `running` is the C variable `running = 1`; `halted`
is `running = 0` set by `TRAP_HALT`; `aborted` is the call of `abort()`;
`badOpcode` is `running = 0` set by the `default` branch; `outOfBounds` marks a
read through a pointer that has left the array `memory` (the C program has no
defined behaviour from there on). -/
inductive Status where
  | running
  | halted
  | aborted
  | badOpcode
  | outOfBounds
  deriving DecidableEq, Repr

/-- The state of the virtual machine: the arrays `reg` and `memory`, the bytes
of standard input not yet returned by `getchar`, the bytes written to standard
output, and the status of the execution loop.  Of the bytes in `input`, the
first `buffered` have already been moved by a `read` into the stdio buffer of
`stdin`; the others are pending on descriptor 0.  The flag `eof` tells that
descriptor 0 reports end of file when no byte is pending on it (a file, a
pipe whose writer is gone); it is `false` for a terminal or an open pipe. -/
structure VM where
  reg : Nat → Nat
  memory : Nat → Nat
  input : List Nat
  output : List Nat
  status : Status
  buffered : Nat := 0
  eof : Bool := false

/-- Array assignment `a[i] = v`. -/
def store (a : Nat → Nat) (i v : Nat) : Nat → Nat :=
  fun j => if j = i then v else a j

/-- Conversion of an `int` to `uint16_t`. -/
def toU16 (i : Int) : Nat := (i % 65536).toNat

/-- Conversion of an `int` to `char`, taken as a signed 8-bit type (the
x86-64 ABI): the result lies in `-128 .. 127`. -/
def toChar (i : Int) : Int := (i + 128) % 256 - 128

/-- The byte `putc` writes for its `int` argument: the argument converted to
`unsigned char`. -/
def toByte (i : Int) : Nat := (i % 256).toNat

/-- All registers and memory words are 16-bit values, input bytes are 8-bit. -/
def VM.WF (s : VM) : Prop :=
  (∀ i, s.reg i < 65536) ∧ (∀ a, s.memory a < 65536) ∧ (∀ b ∈ s.input, b < 256)

/-! ## Helper functions of `vm.c` -/

/-- The function `signExtend(x, bit_count)`.  In `x |= (0xFFFF << bit_count)` both operands
are `int`; the assignment to the `uint16_t` variable `x` keeps the low 16 bits. -/
def signExtend (x bit_count : Nat) : Nat :=
  if (x >>> (bit_count - 1)) &&& 1 ≠ 0 then
    (x ||| (0xFFFF <<< bit_count)) % 65536
  else
    x

/-- The function `updateFlags(r)`. -/
def updateFlags (r : Nat) (s : VM) : VM :=
  if s.reg r = 0 then
    { s with reg := store s.reg R_COND FL_ZRO }
  else if s.reg r >>> 15 ≠ 0 then
    { s with reg := store s.reg R_COND FL_NEG }
  else
    { s with reg := store s.reg R_COND FL_POS }

/-- The function `memWrite(address, val)`. -/
def memWrite (address val : Nat) (s : VM) : VM :=
  { s with memory := store s.memory address val }

/-- The function `check_key()`: whether `select`, with a zero timeout, reports
descriptor 0 readable.  That is the case when a byte is pending on the
descriptor, or when the descriptor is at end of file; bytes that an earlier
`getchar` has moved into the stdio buffer are not seen. -/
def check_key (s : VM) : Bool :=
  decide (s.buffered < s.input.length) || s.eof

/-- The function `getchar()`: the next byte of the stream, taken from the stdio
buffer; when the buffer is empty it is first filled by a `read` that takes all
the bytes pending on descriptor 0.  With no byte left the result is `EOF`
(`-1`); on a descriptor that is not at end of file the C call would wait there
for a byte to arrive, which the model, having no later input to deliver, does
not represent. -/
def getchar (s : VM) : Int × VM :=
  match s.input with
  | [] => (-1, s)
  | b :: rest =>
    ((b : Int),
      { s with input := rest,
               buffered := if s.buffered = 0 then rest.length else s.buffered - 1 })

/-- The function `memRead(address)`. -/
def memRead (address : Nat) (s : VM) : Nat × VM :=
  let s1 : VM :=
    if address = MR_KBSR then
      if check_key s then
        let s2 : VM := { s with memory := store s.memory MR_KBSR (1 <<< 15) }
        let r := getchar s2
        { r.2 with memory := store r.2.memory MR_KBDR (toU16 r.1) }
      else
        { s with memory := store s.memory MR_KBSR 0 }
    else
      s
  (s1.memory address, s1)

/-- The function `swap16(x)`: the two operands of `|` are `int`, the return value is
converted to `uint16_t`. -/
def swap16 (x : Nat) : Nat :=
  ((x >>> 8) ||| (x <<< 8)) % 65536

/-! ## The instruction cases of the `switch` in `main` -/

/-- The branch `case OP_ADD`. -/
def opADD (instr : Nat) (s : VM) : VM :=
  let r0 := (instr >>> 9) &&& 0x7
  let r1 := (instr >>> 6) &&& 0x7
  let imm_flag := (instr >>> 5) &&& 0x1
  let s1 : VM :=
    if imm_flag ≠ 0 then
      let imm5 := signExtend (instr &&& 0x1F) 5
      { s with reg := store s.reg r0 ((s.reg r1 + imm5) % 65536) }
    else
      let r2 := instr &&& 0x7
      { s with reg := store s.reg r0 ((s.reg r1 + s.reg r2) % 65536) }
  updateFlags r0 s1

/-- The branch `case OP_AND`.  The case ends after the assignment to `reg[r0]`. -/
def opAND (instr : Nat) (s : VM) : VM :=
  let r0 := (instr >>> 9) &&& 0x7
  let r1 := (instr >>> 6) &&& 0x7
  let imm_flag := (instr >>> 5) &&& 0x1
  if imm_flag ≠ 0 then
    let imm5 := signExtend (instr &&& 0x1F) 5
    { s with reg := store s.reg r0 ((s.reg r1 &&& imm5) % 65536) }
  else
    let r2 := instr &&& 0x7
    { s with reg := store s.reg r0 ((s.reg r1 &&& s.reg r2) % 65536) }

/-- The branch `case OP_NOT`: `~reg[r1]` converted to `uint16_t` flips the low 16 bits. -/
def opNOT (instr : Nat) (s : VM) : VM :=
  let r0 := (instr >>> 9) &&& 0x7
  let r1 := (instr >>> 6) &&& 0x7
  updateFlags r0 { s with reg := store s.reg r0 ((s.reg r1 ^^^ 0xFFFF) % 65536) }

/-- The branch `case OP_BR`. -/
def opBR (instr : Nat) (s : VM) : VM :=
  let pc_offset := signExtend (instr &&& 0x1FF) 9
  let cond_flag := (instr >>> 9) &&& 0x7
  if cond_flag &&& s.reg R_COND ≠ 0 then
    { s with reg := store s.reg R_PC ((s.reg R_PC + pc_offset) % 65536) }
  else
    s

/-- The branch `case OP_JMP`. -/
def opJMP (instr : Nat) (s : VM) : VM :=
  let r1 := (instr >>> 6) &&& 0x7
  { s with reg := store s.reg R_PC (s.reg r1) }

/-- The branch `case OP_JSR`. -/
def opJSR (instr : Nat) (s : VM) : VM :=
  let longFlag := (instr >>> 11) &&& 1
  let s1 : VM := { s with reg := store s.reg R_R7 (s.reg R_PC) }
  if longFlag ≠ 0 then
    let long_pc_offset := signExtend (instr &&& 0x7FF) 11
    { s1 with reg := store s1.reg R_PC ((s1.reg R_PC + long_pc_offset) % 65536) }
  else
    let r1 := (instr >>> 6) &&& 0x7
    { s1 with reg := store s1.reg R_PC (s1.reg r1) }

/-- The branch `case OP_LD`. -/
def opLD (instr : Nat) (s : VM) : VM :=
  let r0 := (instr >>> 9) &&& 0x7
  let pc_offset := signExtend (instr &&& 0x1FF) 9
  let r := memRead ((s.reg R_PC + pc_offset) % 65536) s
  updateFlags r0 { r.2 with reg := store r.2.reg r0 r.1 }

/-- The branch `case OP_LDI`. -/
def opLDI (instr : Nat) (s : VM) : VM :=
  let r0 := (instr >>> 9) &&& 0x7
  let pc_offset := signExtend (instr &&& 0x1FF) 9
  let inner := memRead ((s.reg R_PC + pc_offset) % 65536) s
  let r := memRead inner.1 inner.2
  updateFlags r0 { r.2 with reg := store r.2.reg r0 r.1 }

/-- The branch `case OP_LDR`. -/
def opLDR (instr : Nat) (s : VM) : VM :=
  let r0 := (instr >>> 9) &&& 0x7
  let r1 := (instr >>> 6) &&& 0x7
  let offset := signExtend (instr &&& 0x3F) 6
  let r := memRead ((s.reg r1 + offset) % 65536) s
  updateFlags r0 { r.2 with reg := store r.2.reg r0 r.1 }

/-- The branch `case OP_LEA`. -/
def opLEA (instr : Nat) (s : VM) : VM :=
  let r0 := (instr >>> 9) &&& 0x7
  let pc_offset := signExtend (instr &&& 0x1FF) 9
  updateFlags r0 { s with reg := store s.reg r0 ((s.reg R_PC + pc_offset) % 65536) }

/-- The branch `case OP_ST`. -/
def opST (instr : Nat) (s : VM) : VM :=
  let r0 := (instr >>> 9) &&& 0x7
  let pc_offset := signExtend (instr &&& 0x1FF) 9
  memWrite ((s.reg R_PC + pc_offset) % 65536) (s.reg r0) s

/-- The branch `case OP_STI`. -/
def opSTI (instr : Nat) (s : VM) : VM :=
  let r0 := (instr >>> 9) &&& 0x7
  let pc_offset := signExtend (instr &&& 0x1FF) 9
  let r := memRead ((s.reg R_PC + pc_offset) % 65536) s
  memWrite r.1 (r.2.reg r0) r.2

/-- The branch `case OP_STR`. -/
def opSTR (instr : Nat) (s : VM) : VM :=
  let r0 := (instr >>> 9) &&& 0x7
  let r1 := (instr >>> 6) &&& 0x7
  let offset := signExtend (instr &&& 0x3F) 6
  memWrite ((s.reg r1 + offset) % 65536) (s.reg r0) s

/-! ## The trap routines (`case OP_TRAP`) -/

/-- The loop `while (*c) { putc((char)*c, stdout); ++c; }` of `TRAP_PUTS`,
started with the pointer `c = memory + addr` and `fuel = MEMORY_MAX - addr`
words left before the end of the array.  Returns the bytes written and whether
the loop met a zero word inside the array. -/
def putsLoop (memory : Nat → Nat) : Nat → Nat → List Nat × Bool
  | 0, _ => ([], false)
  | fuel + 1, addr =>
    if memory addr = 0 then
      ([], true)
    else
      let r := putsLoop memory fuel (addr + 1)
      (toByte (toChar ((memory addr : Nat) : Int)) :: r.1, r.2)

/-- The bytes one round of the `TRAP_PUTSP` loop writes for the word `w`. -/
def putspWord (w : Nat) : List Nat :=
  let c1 := toChar ((w &&& 0xFF : Nat) : Int)
  let c2 := toChar ((w >>> 8 : Nat) : Int)
  if c2 ≠ 0 then [toByte c1, toByte c2] else [toByte c1]

/-- The loop of `TRAP_PUTSP`, with the same conventions as `putsLoop`. -/
def putspLoop (memory : Nat → Nat) : Nat → Nat → List Nat × Bool
  | 0, _ => ([], false)
  | fuel + 1, addr =>
    if memory addr = 0 then
      ([], true)
    else
      let r := putspLoop memory fuel (addr + 1)
      (putspWord (memory addr) ++ r.1, r.2)

/-- The bytes of `"Enter a character: "`. -/
def promptBytes : List Nat :=
  [69, 110, 116, 101, 114, 32, 97, 32, 99, 104, 97, 114, 97, 99, 116, 101, 114, 58, 32]

/-- The bytes `puts("HALT")` writes: the string and a newline. -/
def haltBytes : List Nat := [72, 65, 76, 84, 10]

/-- The branch `case TRAP_GETC`. -/
def trapGETC (s : VM) : VM :=
  let r := getchar s
  updateFlags R_R0 { r.2 with reg := store r.2.reg R_R0 (toU16 r.1) }

/-- The branch `case TRAP_OUT`. -/
def trapOUT (s : VM) : VM :=
  { s with output := s.output ++ [toByte (toChar ((s.reg R_R0 : Nat) : Int))] }

/-- The branch `case TRAP_PUTS`. -/
def trapPUTS (s : VM) : VM :=
  let r := putsLoop s.memory (MEMORY_MAX - s.reg R_R0) (s.reg R_R0)
  { s with output := s.output ++ r.1,
           status := if r.2 then s.status else Status.outOfBounds }

/-- The branch `case TRAP_IN`. -/
def trapIN (s : VM) : VM :=
  let s1 : VM := { s with output := s.output ++ promptBytes }
  let r := getchar s1
  let c := toChar r.1
  let s2 : VM := { r.2 with output := r.2.output ++ [toByte c] }
  updateFlags R_R0 { s2 with reg := store s2.reg R_R0 (toU16 c) }

/-- The branch `case TRAP_PUTSP`. -/
def trapPUTSP (s : VM) : VM :=
  let r := putspLoop s.memory (MEMORY_MAX - s.reg R_R0) (s.reg R_R0)
  { s with output := s.output ++ r.1,
           status := if r.2 then s.status else Status.outOfBounds }

/-- The branch `case TRAP_HALT`. -/
def trapHALT (s : VM) : VM :=
  { s with output := s.output ++ haltBytes, status := Status.halted }

/-- The branch `case OP_TRAP`: the inner `switch (instr & 0xFF)` has no `default`. -/
def opTRAP (instr : Nat) (s : VM) : VM :=
  let s1 : VM := { s with reg := store s.reg R_R7 (s.reg R_PC) }
  let vect := instr &&& 0xFF
  if vect = TRAP_GETC then trapGETC s1
  else if vect = TRAP_OUT then trapOUT s1
  else if vect = TRAP_PUTS then trapPUTS s1
  else if vect = TRAP_IN then trapIN s1
  else if vect = TRAP_PUTSP then trapPUTSP s1
  else if vect = TRAP_HALT then trapHALT s1
  else s1

/-! ## The execution loop -/

/-- The bytes `printf("BAD OPCODE: %d\n", opcode)` writes. -/
def badOpcodeBytes (opcode : Nat) : List Nat :=
  [66, 65, 68, 32, 79, 80, 67, 79, 68, 69, 58, 32] ++
    (Nat.toDigits 10 opcode).map Char.toNat ++ [10]

/-- The `switch (opcode)` of `main`, with `opcode = instr >> 12`; the last
branch is the `default`. -/
def execute (instr : Nat) (s : VM) : VM :=
  let opcode := (instr >>> 12) % 65536
  if opcode = OP_ADD then opADD instr s
  else if opcode = OP_AND then opAND instr s
  else if opcode = OP_NOT then opNOT instr s
  else if opcode = OP_BR then opBR instr s
  else if opcode = OP_JMP then opJMP instr s
  else if opcode = OP_JSR then opJSR instr s
  else if opcode = OP_LD then opLD instr s
  else if opcode = OP_LDI then opLDI instr s
  else if opcode = OP_LDR then opLDR instr s
  else if opcode = OP_LEA then opLEA instr s
  else if opcode = OP_ST then opST instr s
  else if opcode = OP_STI then opSTI instr s
  else if opcode = OP_STR then opSTR instr s
  else if opcode = OP_TRAP then opTRAP instr s
  else if opcode = OP_RES then { s with status := Status.aborted }
  else if opcode = OP_RTI then { s with status := Status.aborted }
  else { s with output := s.output ++ badOpcodeBytes opcode, status := Status.badOpcode }

/-- The fetch `instr = memRead(reg[R_PC]++)`: the instruction word and the
state after the read, with the program counter advanced. -/
def fetch (s : VM) : Nat × VM :=
  memRead (s.reg R_PC) { s with reg := store s.reg R_PC ((s.reg R_PC + 1) % 65536) }

/-- One round of the loop body: fetch, decode, execute. -/
def cycle (s : VM) : VM :=
  let r := fetch s
  execute r.1 r.2

/-- The loop `while (running) { ... }`, cut off after `fuel` rounds. -/
def run : Nat → VM → VM
  | 0, s => s
  | fuel + 1, s => if s.status = Status.running then run fuel (cycle s) else s

/-! ## The image loader -/

/-- The call `fread(p, sizeof(uint16_t), count, file)` on a little-endian host:
stores up to `count` whole words at `memory[p], memory[p+1], ...`, first byte
of each pair in the low half.  Returns the memory and the number of words. -/
def freadWords (memory : Nat → Nat) (p : Nat) : Nat → List Nat → (Nat → Nat) × Nat
  | count + 1, b0 :: b1 :: rest =>
    let r := freadWords (store memory p (b0 + 256 * b1)) (p + 1) count rest
    (r.1, r.2 + 1)
  | _, _ => (memory, 0)

/-- The loop `while (read-- > 0) { *p = swap16(*p); p++; }`. -/
def swapLoop (memory : Nat → Nat) (p : Nat) : Nat → (Nat → Nat)
  | 0 => memory
  | read + 1 => swapLoop (store memory p (swap16 (memory p))) (p + 1) read

/-- The function `readImageFile(file)`, the file given by its bytes.  The result is `none`
where C leaves the outcome indeterminate: the file is too short to hold the
origin, or `fread` stops inside a word. -/
def readImageFile (file : List Nat) (s : VM) : Option VM :=
  match file with
  | b0 :: b1 :: rest =>
    let origin := swap16 (b0 + 256 * b1)
    let max_read := (MEMORY_MAX - origin) % 65536
    if rest.length % 2 = 1 ∧ rest.length / 2 < max_read then
      none
    else
      let r := freadWords s.memory origin max_read rest
      some { s with memory := swapLoop r.1 origin r.2 }
  | _ => none

/-- The state at process start: the global arrays are zero-initialised and the
loop has not begun. -/
def startState (input : List Nat) : VM :=
  { reg := fun _ => 0, memory := fun _ => 0, input := input, output := [],
    status := Status.running }

/-- The function `main` up to the loop: load the image, then `reg[R_PC] = 0x3000`. -/
def boot (file input : List Nat) : Option VM :=
  (readImageFile file (startState input)).map
    (fun s => { s with reg := store s.reg R_PC 0x3000 })

/-- The big-endian bytes of an image file with origin `o` and words `ws`. -/
def imageBytes (o : Nat) (ws : List Nat) : List Nat :=
  (o :: ws).flatMap (fun w => [w / 256, w % 256])

/-! ## Concrete states used in the examples -/

/-- A state with the given values in `R0` and in the condition register, all
other registers and all memory zero. -/
def regState (r0 cond : Nat) : VM :=
  { startState [] with reg := store (store (fun _ => 0) R_R0 r0) R_COND cond }

/-- The state `main` enters the loop with for the three-word image
`AND R0,R0,#0; ADD R0,R0,#5; TRAP HALT` at origin `0x3000`. -/
def demoState : VM :=
  (boot (imageBytes 0x3000 [0x5020, 0x1025, 0xF025]) []).getD (startState [])

/-- A running state whose memory holds the words `ws` from address `r0` on and
zero elsewhere, with `R0 = r0`, all other registers zero, and the given bytes
pending on standard input, a terminal whose stdio buffer is still empty. -/
def stringState (r0 : Nat) (ws input : List Nat) : VM :=
  { reg := store (fun _ => 0) R_R0 r0,
    memory := fun a => if r0 ≤ a then ws.getD (a - r0) 0 else 0,
    input := input, output := [], status := Status.running }

/-- A terminal on which the key `0x41` is pending, the program counter at
the keyboard status address `0xFE00`, everything else zero. -/
def pollState : VM :=
  { stringState 0 [] [0x41] with reg := store (fun _ => 0) R_PC MR_KBSR }

/-- An input at end of file with nothing left to read, everything else zero. -/
def eofState : VM :=
  { stringState 0 [] [] with eof := true }

/-- The state `main` enters the loop with for the one-word image `0xD000`
(opcode RES) at origin `0x3000`. -/
def reservedState : VM :=
  (boot (imageBytes 0x3000 [0xD000]) []).getD (startState [])

/-! ## What one instruction can do to the state -/

/-- The relation between a state `s` and a state `t` reached from it by parts
of the loop body: well-formedness is kept; the status is kept or becomes
`halted`, `aborted` or `outOfBounds`; the condition register is kept or holds
one of the three flags. -/
def Preserved (s t : VM) : Prop :=
  (s.WF → t.WF) ∧
  (t.status = s.status ∨ t.status = Status.halted ∨ t.status = Status.aborted ∨
    t.status = Status.outOfBounds) ∧
  (t.reg R_COND = s.reg R_COND ∨ t.reg R_COND = FL_POS ∨ t.reg R_COND = FL_ZRO ∨
    t.reg R_COND = FL_NEG)

/-- The state `main` enters the loop with for an image at origin `0x3000`
whose first word is `BRnzp #1` (`0x0E01`), followed by two `TRAP HALT`. -/
def branchFirstState : VM :=
  (boot (imageBytes 0x3000 [0x0E01, 0xF025, 0xF025]) []).getD (startState [])

/-! ## Basic facts about the embedding -/

@[simp] theorem store_same (a : Nat → Nat) (i v : Nat) : store a i v i = v := by
  simp [store]

@[simp] theorem store_other (a : Nat → Nat) (i v j : Nat) (h : j ≠ i) :
    store a i v j = a j := by
  simp [store, h]

theorem and7_le (x : Nat) : x &&& 0x7 ≤ 7 := Nat.and_le_right

theorem and7_ne_cond (x : Nat) : x &&& 0x7 ≠ R_COND := by
  have := and7_le x
  simp only [R_COND]; omega

theorem and7_ne_pc (x : Nat) : x &&& 0x7 ≠ R_PC := by
  have := and7_le x
  simp only [R_PC]; omega

/-- What `updateFlags` leaves in the condition register, by the value read. -/
theorem updateFlags_cond (r : Nat) (s : VM) :
    (updateFlags r s).reg R_COND =
      if s.reg r = 0 then FL_ZRO else if 32768 ≤ s.reg r then FL_NEG else FL_POS := by
  unfold updateFlags
  have h15 : s.reg r >>> 15 = s.reg r / 32768 := by
    rw [Nat.shiftRight_eq_div_pow]
  by_cases h0 : s.reg r = 0
  · simp [h0]
  · by_cases h1 : 32768 ≤ s.reg r
    · have : s.reg r / 32768 ≠ 0 := by
        have := Nat.div_pos h1 (by norm_num : 0 < 32768)
        omega
      simp [h0, h1, h15, this]
    · have : s.reg r / 32768 = 0 := Nat.div_eq_of_lt (by omega)
      simp [h0, h1, h15, this]

/-- The register array after `updateFlags`: only `reg[R_COND]` is written. -/
theorem updateFlags_reg (r : Nat) (s : VM) (i : Nat) (hi : i ≠ R_COND) :
    (updateFlags r s).reg i = s.reg i := by
  unfold updateFlags
  split
  · simp [hi]
  · split <;> simp [hi]

theorem updateFlags_memory (r : Nat) (s : VM) : (updateFlags r s).memory = s.memory := by
  unfold updateFlags
  split
  · rfl
  · split <;> rfl

theorem updateFlags_status (r : Nat) (s : VM) : (updateFlags r s).status = s.status := by
  unfold updateFlags
  split
  · rfl
  · split <;> rfl

theorem updateFlags_input (r : Nat) (s : VM) : (updateFlags r s).input = s.input := by
  unfold updateFlags
  split
  · rfl
  · split <;> rfl

theorem updateFlags_output (r : Nat) (s : VM) : (updateFlags r s).output = s.output := by
  unfold updateFlags
  split
  · rfl
  · split <;> rfl

/-- A read from any address but the keyboard status register is a lookup. -/
theorem memRead_plain (a : Nat) (s : VM) (h : a ≠ MR_KBSR) :
    memRead a s = (s.memory a, s) := by
  simp [memRead, h]

/-! ## Dispatch of the `switch` -/

theorem execute_ADD (instr : Nat) (s : VM) (h : instr >>> 12 = OP_ADD) :
    execute instr s = opADD instr s := by
  simp [execute, h, OP_BR, OP_ADD, OP_LD, OP_ST, OP_JSR, OP_AND, OP_LDR, OP_STR, OP_RTI, OP_NOT, OP_LDI, OP_STI, OP_JMP, OP_RES, OP_LEA, OP_TRAP]

theorem execute_AND (instr : Nat) (s : VM) (h : instr >>> 12 = OP_AND) :
    execute instr s = opAND instr s := by
  simp [execute, h, OP_BR, OP_ADD, OP_LD, OP_ST, OP_JSR, OP_AND, OP_LDR, OP_STR, OP_RTI, OP_NOT, OP_LDI, OP_STI, OP_JMP, OP_RES, OP_LEA, OP_TRAP]

theorem execute_NOT (instr : Nat) (s : VM) (h : instr >>> 12 = OP_NOT) :
    execute instr s = opNOT instr s := by
  simp [execute, h, OP_BR, OP_ADD, OP_LD, OP_ST, OP_JSR, OP_AND, OP_LDR, OP_STR, OP_RTI, OP_NOT, OP_LDI, OP_STI, OP_JMP, OP_RES, OP_LEA, OP_TRAP]

theorem execute_BR (instr : Nat) (s : VM) (h : instr >>> 12 = OP_BR) :
    execute instr s = opBR instr s := by
  simp [execute, h, OP_BR, OP_ADD, OP_LD, OP_ST, OP_JSR, OP_AND, OP_LDR, OP_STR, OP_RTI, OP_NOT, OP_LDI, OP_STI, OP_JMP, OP_RES, OP_LEA, OP_TRAP]

theorem execute_JMP (instr : Nat) (s : VM) (h : instr >>> 12 = OP_JMP) :
    execute instr s = opJMP instr s := by
  simp [execute, h, OP_BR, OP_ADD, OP_LD, OP_ST, OP_JSR, OP_AND, OP_LDR, OP_STR, OP_RTI, OP_NOT, OP_LDI, OP_STI, OP_JMP, OP_RES, OP_LEA, OP_TRAP]

theorem execute_JSR (instr : Nat) (s : VM) (h : instr >>> 12 = OP_JSR) :
    execute instr s = opJSR instr s := by
  simp [execute, h, OP_BR, OP_ADD, OP_LD, OP_ST, OP_JSR, OP_AND, OP_LDR, OP_STR, OP_RTI, OP_NOT, OP_LDI, OP_STI, OP_JMP, OP_RES, OP_LEA, OP_TRAP]

theorem execute_LD (instr : Nat) (s : VM) (h : instr >>> 12 = OP_LD) :
    execute instr s = opLD instr s := by
  simp [execute, h, OP_BR, OP_ADD, OP_LD, OP_ST, OP_JSR, OP_AND, OP_LDR, OP_STR, OP_RTI, OP_NOT, OP_LDI, OP_STI, OP_JMP, OP_RES, OP_LEA, OP_TRAP]

theorem execute_LDI (instr : Nat) (s : VM) (h : instr >>> 12 = OP_LDI) :
    execute instr s = opLDI instr s := by
  simp [execute, h, OP_BR, OP_ADD, OP_LD, OP_ST, OP_JSR, OP_AND, OP_LDR, OP_STR, OP_RTI, OP_NOT, OP_LDI, OP_STI, OP_JMP, OP_RES, OP_LEA, OP_TRAP]

theorem execute_LDR (instr : Nat) (s : VM) (h : instr >>> 12 = OP_LDR) :
    execute instr s = opLDR instr s := by
  simp [execute, h, OP_BR, OP_ADD, OP_LD, OP_ST, OP_JSR, OP_AND, OP_LDR, OP_STR, OP_RTI, OP_NOT, OP_LDI, OP_STI, OP_JMP, OP_RES, OP_LEA, OP_TRAP]

theorem execute_LEA (instr : Nat) (s : VM) (h : instr >>> 12 = OP_LEA) :
    execute instr s = opLEA instr s := by
  simp [execute, h, OP_BR, OP_ADD, OP_LD, OP_ST, OP_JSR, OP_AND, OP_LDR, OP_STR, OP_RTI, OP_NOT, OP_LDI, OP_STI, OP_JMP, OP_RES, OP_LEA, OP_TRAP]

theorem execute_ST (instr : Nat) (s : VM) (h : instr >>> 12 = OP_ST) :
    execute instr s = opST instr s := by
  simp [execute, h, OP_BR, OP_ADD, OP_LD, OP_ST, OP_JSR, OP_AND, OP_LDR, OP_STR, OP_RTI, OP_NOT, OP_LDI, OP_STI, OP_JMP, OP_RES, OP_LEA, OP_TRAP]

theorem execute_STI (instr : Nat) (s : VM) (h : instr >>> 12 = OP_STI) :
    execute instr s = opSTI instr s := by
  simp [execute, h, OP_BR, OP_ADD, OP_LD, OP_ST, OP_JSR, OP_AND, OP_LDR, OP_STR, OP_RTI, OP_NOT, OP_LDI, OP_STI, OP_JMP, OP_RES, OP_LEA, OP_TRAP]

theorem execute_STR (instr : Nat) (s : VM) (h : instr >>> 12 = OP_STR) :
    execute instr s = opSTR instr s := by
  simp [execute, h, OP_BR, OP_ADD, OP_LD, OP_ST, OP_JSR, OP_AND, OP_LDR, OP_STR, OP_RTI, OP_NOT, OP_LDI, OP_STI, OP_JMP, OP_RES, OP_LEA, OP_TRAP]

theorem execute_TRAP (instr : Nat) (s : VM) (h : instr >>> 12 = OP_TRAP) :
    execute instr s = opTRAP instr s := by
  simp [execute, h, OP_BR, OP_ADD, OP_LD, OP_ST, OP_JSR, OP_AND, OP_LDR, OP_STR, OP_RTI, OP_NOT, OP_LDI, OP_STI, OP_JMP, OP_RES, OP_LEA, OP_TRAP]

/-! ## Sign extension (C3) -/

/-- C3: for a field width `k` of 5, 6, 9 or 11 and a field value `f < 2^k`,
`signExtend f k` is `f` when bit `k-1` of `f` is clear, and the 16-bit pattern
of `f - 2^k`, namely `f + 2^16 - 2^k`, when bit `k-1` is set. -/
theorem signExtend_spec (k f : Nat) (hk : k = 5 ∨ k = 6 ∨ k = 9 ∨ k = 11) (hf : f < 2 ^ k) :
    (f / 2 ^ (k - 1) % 2 = 0 → signExtend f k = f) ∧
    (f / 2 ^ (k - 1) % 2 = 1 → signExtend f k = f + 2 ^ 16 - 2 ^ k) := by
  have hbit : (f >>> (k - 1)) &&& 1 = f / 2 ^ (k - 1) % 2 := by
    rw [Nat.shiftRight_eq_div_pow, Nat.and_one_is_mod]
  have hor : f ||| (0xFFFF <<< k) = 0xFFFF * 2 ^ k + f := by
    rw [Nat.or_comm, Nat.shiftLeft_eq, Nat.mul_comm, ← Nat.mul_add_lt_is_or hf]
  constructor
  · intro h
    simp [signExtend, hbit, h]
  · intro h
    simp only [signExtend, hbit, h, hor]
    rcases hk with rfl | rfl | rfl | rfl <;> norm_num at hf ⊢ <;> omega

theorem signExtend_spec_witness :
    (0x1F < 2 ^ 5 ∧ 0x1F / 2 ^ (5 - 1) % 2 = 1) ∧ signExtend 0x1F 5 = 0x1F + 2 ^ 16 - 2 ^ 5 :=
  ⟨⟨by decide, by decide⟩,
    (signExtend_spec 5 0x1F (Or.inl rfl) (by decide)).2 (by decide)⟩

/-! ## Condition flags (C4) -/

/-- C4: for a general register index `r` in `0..7`, `updateFlags r` leaves the
condition register equal to one of `FL_POS` (1), `FL_ZRO` (2), `FL_NEG` (4):
`FL_ZRO` iff `reg[r] = 0`, `FL_NEG` iff bit 15 of `reg[r]` is set, `FL_POS` in
the remaining case; and it changes no general register, not the program counter
and no memory word. -/
theorem updateFlags_spec (s : VM) (r : Nat) (_hr : r < 8) (hwf : s.WF) :
    ((updateFlags r s).reg R_COND = FL_POS ∨ (updateFlags r s).reg R_COND = FL_ZRO ∨
      (updateFlags r s).reg R_COND = FL_NEG) ∧
    ((updateFlags r s).reg R_COND = FL_ZRO ↔ s.reg r = 0) ∧
    ((updateFlags r s).reg R_COND = FL_NEG ↔ s.reg r / 2 ^ 15 % 2 = 1) ∧
    ((updateFlags r s).reg R_COND = FL_POS ↔ ¬ s.reg r = 0 ∧ ¬ s.reg r / 2 ^ 15 % 2 = 1) ∧
    (∀ i, i < 8 → (updateFlags r s).reg i = s.reg i) ∧
    (updateFlags r s).reg R_PC = s.reg R_PC ∧
    (∀ a, (updateFlags r s).memory a = s.memory a) := by
  have hlt : s.reg r < 65536 := hwf.1 r
  have hfr : ∀ i, i < 8 → (updateFlags r s).reg i = s.reg i := by
    intro i hi
    apply updateFlags_reg
    simp only [R_COND]; omega
  have hpc : (updateFlags r s).reg R_PC = s.reg R_PC := by
    apply updateFlags_reg
    simp [R_PC, R_COND]
  have hmem : ∀ a, (updateFlags r s).memory a = s.memory a := by
    intro a; rw [updateFlags_memory]
  refine ⟨?_, ?_, ?_, ?_, hfr, hpc, hmem⟩ <;> rw [updateFlags_cond] <;>
    simp only [FL_POS, FL_ZRO, FL_NEG] <;> split_ifs <;> omega

theorem updateFlags_spec_witness :
    (3 < 8 ∧ (startState []).WF) ∧
      ((updateFlags 3 (startState [])).reg R_COND = FL_ZRO ↔ (startState []).reg 3 = 0) :=
  have hwf : (startState []).WF := by simp [VM.WF, startState]
  ⟨⟨by decide, hwf⟩, (updateFlags_spec (startState []) 3 (by decide) hwf).2.1⟩

/-! ## ADD and AND (C1, C2) -/

/-- C2: executing an ADD instruction word (opcode 0001) sets the destination
register (bits 11-9) to `(src1 + operand) mod 2^16`, where `src1` is the
register named by bits 8-6 and `operand` is the sign-extended 5-bit immediate
when bit 5 is 1 and the register named by bits 2-0 otherwise; the loop status is
untouched (no fault on overflow); the condition flag afterwards is ZERO,
NEGATIVE or POSITIVE according to the new destination value.  In particular
with `R0 = 0x7FFF`, `ADD R0,R0,#1` (word `0x1021`) leaves `R0 = 0x8000` and
flag NEGATIVE. -/
theorem add_spec (s : VM) (instr : Nat) (hop : instr >>> 12 = OP_ADD) :
    (execute instr s).reg ((instr >>> 9) &&& 0x7) =
      (s.reg ((instr >>> 6) &&& 0x7) +
        (if (instr >>> 5) &&& 0x1 = 1 then signExtend (instr &&& 0x1F) 5
         else s.reg (instr &&& 0x7))) % 65536 ∧
    (execute instr s).status = s.status ∧
    ((execute instr s).reg R_COND = FL_ZRO ↔
      (execute instr s).reg ((instr >>> 9) &&& 0x7) = 0) ∧
    ((execute instr s).reg R_COND = FL_NEG ↔
      32768 ≤ (execute instr s).reg ((instr >>> 9) &&& 0x7)) ∧
    ((execute instr s).reg R_COND = FL_POS ↔
      0 < (execute instr s).reg ((instr >>> 9) &&& 0x7) ∧
      (execute instr s).reg ((instr >>> 9) &&& 0x7) < 32768) ∧
    (instr = 0x1021 → s.reg R_R0 = 0x7FFF →
      (execute instr s).reg R_R0 = 0x8000 ∧ (execute instr s).reg R_COND = FL_NEG) := by
  rw [execute_ADD instr s hop]
  have hd := and7_ne_cond (instr >>> 9)
  have hbit : (instr >>> 5) &&& 0x1 = 0 ∨ (instr >>> 5) &&& 0x1 = 1 := by
    have : (instr >>> 5) &&& 0x1 ≤ 1 := Nat.and_le_right
    omega
  -- the value written to the destination register
  have hval : (opADD instr s).reg ((instr >>> 9) &&& 0x7) =
      (s.reg ((instr >>> 6) &&& 0x7) +
        (if (instr >>> 5) &&& 0x1 = 1 then signExtend (instr &&& 0x1F) 5
         else s.reg (instr &&& 0x7))) % 65536 := by
    unfold opADD
    rw [updateFlags_reg _ _ _ hd]
    rcases hbit with h | h <;> simp [h]
  -- the flag is computed from that value
  have hcond : (opADD instr s).reg R_COND =
      if (opADD instr s).reg ((instr >>> 9) &&& 0x7) = 0 then FL_ZRO
      else if 32768 ≤ (opADD instr s).reg ((instr >>> 9) &&& 0x7) then FL_NEG
      else FL_POS := by
    unfold opADD
    simp only []
    rw [updateFlags_cond, updateFlags_reg _ _ _ hd]
  have hstatus : (opADD instr s).status = s.status := by
    unfold opADD
    rw [updateFlags_status]
    rcases hbit with h | h <;> simp [h]
  refine ⟨hval, hstatus, ?_, ?_, ?_, ?_⟩
  · rw [hcond]; simp only [FL_ZRO, FL_NEG, FL_POS]; split_ifs <;> omega
  · rw [hcond]; simp only [FL_ZRO, FL_NEG, FL_POS]; split_ifs <;> omega
  · rw [hcond]; simp only [FL_ZRO, FL_NEG, FL_POS]; split_ifs <;> omega
  · intro hi h0
    subst hi
    have h8000 : (opADD 0x1021 s).reg R_R0 = 0x8000 := by
      have e9 : (0x1021 >>> 9) &&& 0x7 = 0 := by decide
      have e6 : (0x1021 >>> 6) &&& 0x7 = 0 := by decide
      have e5 : (0x1021 >>> 5) &&& 0x1 = 1 := by decide
      have ei : signExtend (0x1021 &&& 0x1F) 5 = 1 := by decide
      have := hval
      simp only [R_R0] at h0
      rw [e9, e6, e5, ei, h0] at this
      simpa [R_R0] using this
    refine ⟨h8000, ?_⟩
    rw [hcond]
    have h9 : (0x1021 >>> 9) &&& 0x7 = R_R0 := by decide
    rw [h9, h8000]
    simp [FL_NEG]

theorem add_spec_witness :
    0x1021 >>> 12 = OP_ADD ∧ (regState 0x7FFF FL_POS).reg R_R0 = 0x7FFF ∧
      (execute 0x1021 (regState 0x7FFF FL_POS)).reg R_R0 = 0x8000 ∧
      (execute 0x1021 (regState 0x7FFF FL_POS)).reg R_COND = FL_NEG :=
  ⟨by decide, by decide,
    (add_spec (regState 0x7FFF FL_POS) 0x1021 (by decide)).2.2.2.2.2 rfl (by decide)⟩

/-- The part of C1 that the code does: an AND instruction word (opcode 0101)
sets the destination register to `src1 AND operand`, the operands being read
before the write. -/
theorem and_value (s : VM) (instr : Nat) (hop : instr >>> 12 = OP_AND) (hwf : s.WF) :
    (execute instr s).reg ((instr >>> 9) &&& 0x7) =
      s.reg ((instr >>> 6) &&& 0x7) &&&
        (if (instr >>> 5) &&& 0x1 = 1 then signExtend (instr &&& 0x1F) 5
         else s.reg (instr &&& 0x7)) := by
  rw [execute_AND instr s hop]
  have hbit : (instr >>> 5) &&& 0x1 = 0 ∨ (instr >>> 5) &&& 0x1 = 1 := by
    have : (instr >>> 5) &&& 0x1 ≤ 1 := Nat.and_le_right
    omega
  have hlt : ∀ y, s.reg ((instr >>> 6) &&& 0x7) &&& y < 65536 :=
    fun y => lt_of_le_of_lt Nat.and_le_left (hwf.1 _)
  unfold opAND
  rcases hbit with h | h <;> simp [h, Nat.mod_eq_of_lt (hlt _)]

/-- An AND instruction leaves the condition register as it was: `case OP_AND`
has no call of `updateFlags`. -/
theorem and_cond_unchanged (s : VM) (instr : Nat) (hop : instr >>> 12 = OP_AND) :
    (execute instr s).reg R_COND = s.reg R_COND := by
  rw [execute_AND instr s hop]
  have hd := and7_ne_cond (instr >>> 9)
  unfold opAND
  simp only []
  split <;> simp [store, Ne.symm hd]

/-- C1 (the code departs from it): with `R0 = 5` and the flag POSITIVE,
`AND R0,R0,#0` (word `0x5020`) writes `0` to `R0` and leaves the condition
register at POSITIVE, which is not the flag ZERO of the new value. -/
theorem and_flag_stale :
    0x5020 >>> 12 = OP_AND ∧
    (regState 5 FL_POS).reg R_R0 = 5 ∧ (regState 5 FL_POS).reg R_COND = FL_POS ∧
    (execute 0x5020 (regState 5 FL_POS)).reg R_R0 = 0 ∧
    (execute 0x5020 (regState 5 FL_POS)).reg R_COND = FL_POS ∧
    (execute 0x5020 (regState 5 FL_POS)).reg R_COND ≠ FL_ZRO := by
  decide

/-! ## The fetch -/

/-- The fetch advances the program counter by one word, modulo `2^16`. -/
theorem fetch_pc (s : VM) : (fetch s).2.reg R_PC = (s.reg R_PC + 1) % 65536 := by
  unfold fetch memRead
  simp only []
  split
  · split
    · simp [getchar]; split <;> simp
    · simp
  · simp

/-- The fetch from an address other than the keyboard status register returns
the word stored there and changes nothing but the program counter. -/
theorem fetch_plain (s : VM) (h : s.reg R_PC ≠ MR_KBSR) :
    fetch s = (s.memory (s.reg R_PC),
      { s with reg := store s.reg R_PC ((s.reg R_PC + 1) % 65536) }) := by
  unfold fetch
  rw [memRead_plain _ _ h]

/-! ## Control flow (C5, C6) -/

/-- C5: for a BR instruction word (opcode 0000) fetched from address `a`, so
that the program counter already holds `(a + 1) mod 2^16`: when bits 11-9 of
the word AND the condition register is nonzero the program counter becomes
`(a + 1 + signExtend(bits 8-0, 9)) mod 2^16`, otherwise it stays
`(a + 1) mod 2^16`; in both cases `R0..R7`, the condition register and memory
are unchanged. -/
theorem br_spec (s : VM) (instr a : Nat) (hop : instr >>> 12 = OP_BR)
    (hpc : s.reg R_PC = (a + 1) % 65536) :
    (((instr >>> 9) &&& 0x7) &&& s.reg R_COND ≠ 0 →
      (execute instr s).reg R_PC = (a + 1 + signExtend (instr &&& 0x1FF) 9) % 65536) ∧
    (((instr >>> 9) &&& 0x7) &&& s.reg R_COND = 0 →
      (execute instr s).reg R_PC = (a + 1) % 65536) ∧
    (∀ i, i < 8 → (execute instr s).reg i = s.reg i) ∧
    (execute instr s).reg R_COND = s.reg R_COND ∧
    (∀ b, (execute instr s).memory b = s.memory b) := by
  rw [execute_BR instr s hop]
  unfold opBR
  simp only []
  by_cases ht : ((instr >>> 9) &&& 0x7) &&& s.reg R_COND = 0
  · simp [ht, hpc]
  · simp only [ht, ne_eq, not_false_eq_true, if_true, store_same, hpc]
    refine ⟨fun _ => ?_, fun h => absurd h (by simp), ?_, ?_, by simp⟩
    · norm_num [Nat.add_mod]
    · intro i hi
      apply store_other
      simp only [R_PC]; omega
    · apply store_other
      simp [R_PC, R_COND]

theorem br_spec_witness :
    (0x0402 >>> 12 = OP_BR ∧ (regState 0 FL_ZRO).reg R_PC = (65535 + 1) % 65536) ∧
      (execute 0x0402 (regState 0 FL_ZRO)).reg R_PC = 2 :=
  ⟨⟨by decide, by decide⟩,
    (br_spec (regState 0 FL_ZRO) 0x0402 65535 (by decide) (by decide)).1 (by decide)⟩

/-- C6: for a JSR instruction word (opcode 0100, either mode) fetched from
address `a`, so that the program counter already holds `(a + 1) mod 2^16`,
executing the JSR and then a JMP whose base register (bits 8-6) is `R7` leaves
the program counter equal to `(a + 1) mod 2^16`; this holds both when the JMP
case follows at once and when the fetch of the JMP word lies in between. -/
theorem jsr_jmp_roundtrip (s : VM) (jsr jmp a : Nat) (hjsr : jsr >>> 12 = OP_JSR)
    (hjmp : jmp >>> 12 = OP_JMP) (hbase : (jmp >>> 6) &&& 0x7 = R_R7)
    (hpc : s.reg R_PC = (a + 1) % 65536) :
    (execute jmp (execute jsr s)).reg R_PC = (a + 1) % 65536 ∧
    (execute jmp (fetch (execute jsr s)).2).reg R_PC = (a + 1) % 65536 := by
  have hlink : (execute jsr s).reg R_R7 = (a + 1) % 65536 := by
    rw [execute_JSR jsr s hjsr]
    unfold opJSR
    simp only []
    have hpc8 : s.reg 8 = (a + 1) % 65536 := by simpa [R_PC] using hpc
    split <;> simp [store, R_R7, R_PC, hpc8]
  have hfetch : (fetch (execute jsr s)).2.reg R_R7 = (execute jsr s).reg R_R7 := by
    unfold fetch memRead
    simp only []
    split
    · split
      · simp [getchar, R_R7, R_PC]; split <;> simp
      · simp [R_R7, R_PC]
    · simp [R_R7, R_PC]
  constructor
  · rw [execute_JMP jmp _ hjmp]
    simp [opJMP, hbase, hlink]
  · rw [execute_JMP jmp _ hjmp]
    simp [opJMP, hbase, hfetch, hlink]

theorem jsr_jmp_roundtrip_witness :
    (0x4803 >>> 12 = OP_JSR ∧ 0xC1C0 >>> 12 = OP_JMP ∧ (0xC1C0 >>> 6) &&& 0x7 = R_R7 ∧
        (regState 0 FL_ZRO).reg R_PC = (65535 + 1) % 65536) ∧
      (execute 0xC1C0 (execute 0x4803 (regState 0 FL_ZRO))).reg R_PC = 0 :=
  ⟨⟨by decide, by decide, by decide, by decide⟩,
    (jsr_jmp_roundtrip (regState 0 FL_ZRO) 0x4803 0xC1C0 65535
      (by decide) (by decide) (by decide) (by decide)).1⟩

/-! ## Loads (C7) -/

/-- Writing `v` to a general register and calling `updateFlags` on it: the
register holds `v`, the flag is that of `v`, memory is untouched. -/
theorem writeback_spec (t : VM) (r0 v : Nat) (h : r0 ≠ R_COND) :
    (updateFlags r0 { t with reg := store t.reg r0 v }).reg r0 = v ∧
    (updateFlags r0 { t with reg := store t.reg r0 v }).reg R_COND =
      (if v = 0 then FL_ZRO else if 32768 ≤ v then FL_NEG else FL_POS) ∧
    (∀ b, (updateFlags r0 { t with reg := store t.reg r0 v }).memory b = t.memory b) := by
  refine ⟨?_, ?_, ?_⟩
  · rw [updateFlags_reg _ _ _ h]; simp
  · rw [updateFlags_cond]; simp
  · intro b; rw [updateFlags_memory]

/-- C7: for a load instruction fetched from address `a`, the program counter
holding `PC' = (a + 1) mod 2^16`, and no address read being the keyboard status
address `0xFE00`: LD sets the destination register to
`memory[(PC' + sext9) mod 2^16]`; LDI sets it to
`memory[memory[(PC' + sext9) mod 2^16]]`, which is the result of two successive
single reads; LDR sets it to `memory[(base + sext6) mod 2^16]`; LEA sets it to
`(PC' + sext9) mod 2^16` and reads no memory.  Each of the four leaves the
condition register at the flag of the new destination value and leaves memory
unchanged. -/
theorem load_spec (s : VM) (instr a : Nat) (hpc : s.reg R_PC = (a + 1) % 65536) :
    (instr >>> 12 = OP_LD →
      (a + 1 + signExtend (instr &&& 0x1FF) 9) % 65536 ≠ MR_KBSR →
      (execute instr s).reg ((instr >>> 9) &&& 0x7) =
        s.memory ((a + 1 + signExtend (instr &&& 0x1FF) 9) % 65536) ∧
      (execute instr s).reg R_COND =
        (if (execute instr s).reg ((instr >>> 9) &&& 0x7) = 0 then FL_ZRO
         else if 32768 ≤ (execute instr s).reg ((instr >>> 9) &&& 0x7) then FL_NEG
         else FL_POS) ∧
      (∀ b, (execute instr s).memory b = s.memory b)) ∧
    (instr >>> 12 = OP_LDI →
      (a + 1 + signExtend (instr &&& 0x1FF) 9) % 65536 ≠ MR_KBSR →
      s.memory ((a + 1 + signExtend (instr &&& 0x1FF) 9) % 65536) ≠ MR_KBSR →
      (execute instr s).reg ((instr >>> 9) &&& 0x7) =
        s.memory (s.memory ((a + 1 + signExtend (instr &&& 0x1FF) 9) % 65536)) ∧
      (execute instr s).reg ((instr >>> 9) &&& 0x7) =
        (memRead (memRead ((a + 1 + signExtend (instr &&& 0x1FF) 9) % 65536) s).1
          (memRead ((a + 1 + signExtend (instr &&& 0x1FF) 9) % 65536) s).2).1 ∧
      (execute instr s).reg R_COND =
        (if (execute instr s).reg ((instr >>> 9) &&& 0x7) = 0 then FL_ZRO
         else if 32768 ≤ (execute instr s).reg ((instr >>> 9) &&& 0x7) then FL_NEG
         else FL_POS) ∧
      (∀ b, (execute instr s).memory b = s.memory b)) ∧
    (instr >>> 12 = OP_LDR →
      (s.reg ((instr >>> 6) &&& 0x7) + signExtend (instr &&& 0x3F) 6) % 65536 ≠ MR_KBSR →
      (execute instr s).reg ((instr >>> 9) &&& 0x7) =
        s.memory ((s.reg ((instr >>> 6) &&& 0x7) + signExtend (instr &&& 0x3F) 6) % 65536) ∧
      (execute instr s).reg R_COND =
        (if (execute instr s).reg ((instr >>> 9) &&& 0x7) = 0 then FL_ZRO
         else if 32768 ≤ (execute instr s).reg ((instr >>> 9) &&& 0x7) then FL_NEG
         else FL_POS) ∧
      (∀ b, (execute instr s).memory b = s.memory b)) ∧
    (instr >>> 12 = OP_LEA →
      (execute instr s).reg ((instr >>> 9) &&& 0x7) =
        (a + 1 + signExtend (instr &&& 0x1FF) 9) % 65536 ∧
      (execute instr s).reg R_COND =
        (if (execute instr s).reg ((instr >>> 9) &&& 0x7) = 0 then FL_ZRO
         else if 32768 ≤ (execute instr s).reg ((instr >>> 9) &&& 0x7) then FL_NEG
         else FL_POS) ∧
      (∀ b, (execute instr s).memory b = s.memory b) ∧
      (execute instr s).input = s.input) := by
  have hd := and7_ne_cond (instr >>> 9)
  generalize hoff : signExtend (instr &&& 0x1FF) 9 = off
  generalize hoff6 : signExtend (instr &&& 0x3F) 6 = off6
  generalize hdst : (instr >>> 9) &&& 0x7 = dst at hd
  have haddr : (s.reg R_PC + off) % 65536 = (a + 1 + off) % 65536 := by
    rw [hpc, Nat.mod_add_mod]
  refine ⟨?_, ?_, ?_, ?_⟩
  · intro hop hk
    rw [execute_LD instr s hop]
    simp only [opLD, hoff, hdst, haddr, memRead_plain _ _ hk]
    obtain ⟨h1, h2, h3⟩ := writeback_spec s dst (s.memory ((a + 1 + off) % 65536)) hd
    exact ⟨h1, by rw [h2, h1], h3⟩
  · intro hop hk1 hk2
    rw [execute_LDI instr s hop]
    simp only [opLDI, hoff, hdst, haddr, memRead_plain _ _ hk1, memRead_plain _ _ hk2]
    obtain ⟨h1, h2, h3⟩ := writeback_spec s dst
      (s.memory (s.memory ((a + 1 + off) % 65536))) hd
    exact ⟨h1, h1, by rw [h2, h1], h3⟩
  · intro hop hk
    rw [execute_LDR instr s hop]
    simp only [opLDR, hoff6, hdst, memRead_plain _ _ hk]
    obtain ⟨h1, h2, h3⟩ := writeback_spec s dst
      (s.memory ((s.reg ((instr >>> 6) &&& 0x7) + off6) % 65536)) hd
    exact ⟨h1, by rw [h2, h1], h3⟩
  · intro hop
    rw [execute_LEA instr s hop]
    simp only [opLEA, hoff, hdst, haddr]
    obtain ⟨h1, h2, h3⟩ := writeback_spec s dst ((a + 1 + off) % 65536) hd
    exact ⟨h1, by rw [h2, h1], h3, by rw [updateFlags_input]⟩

theorem load_spec_witness :
    (demoState.reg R_PC = (0x2FFF + 1) % 65536 ∧ 0xA201 >>> 12 = OP_LDI ∧
        (0x2FFF + 1 + signExtend (0xA201 &&& 0x1FF) 9) % 65536 ≠ MR_KBSR ∧
        demoState.memory ((0x2FFF + 1 + signExtend (0xA201 &&& 0x1FF) 9) % 65536)
          ≠ MR_KBSR) ∧
      (execute 0xA201 demoState).reg ((0xA201 >>> 9) &&& 0x7) =
        demoState.memory (demoState.memory
          ((0x2FFF + 1 + signExtend (0xA201 &&& 0x1FF) 9) % 65536)) :=
  ⟨⟨by decide, by decide, by decide, by decide⟩,
    ((load_spec demoState 0xA201 0x2FFF (by decide)).2.1
      (by decide) (by decide) (by decide)).1⟩

/-! ## Stores (C8) -/

/-- C8: for a store instruction fetched from address `a`, the program counter
holding `PC' = (a + 1) mod 2^16`, and no address read being `0xFE00`: ST writes
the source register (bits 11-9) to `memory[(PC' + sext9) mod 2^16]`, STI writes
it to `memory[memory[(PC' + sext9) mod 2^16]]`, STR writes it to
`memory[(base + sext6) mod 2^16]`; every other memory word, every general
register `R0..R7` and the condition register are unchanged. -/
theorem store_spec (s : VM) (instr a : Nat) (hpc : s.reg R_PC = (a + 1) % 65536) :
    (instr >>> 12 = OP_ST →
      (execute instr s).memory ((a + 1 + signExtend (instr &&& 0x1FF) 9) % 65536) =
        s.reg ((instr >>> 9) &&& 0x7) ∧
      (∀ b, b ≠ (a + 1 + signExtend (instr &&& 0x1FF) 9) % 65536 →
        (execute instr s).memory b = s.memory b) ∧
      (∀ i, i < 8 → (execute instr s).reg i = s.reg i) ∧
      (execute instr s).reg R_COND = s.reg R_COND) ∧
    (instr >>> 12 = OP_STI →
      (a + 1 + signExtend (instr &&& 0x1FF) 9) % 65536 ≠ MR_KBSR →
      (execute instr s).memory
          (s.memory ((a + 1 + signExtend (instr &&& 0x1FF) 9) % 65536)) =
        s.reg ((instr >>> 9) &&& 0x7) ∧
      (∀ b, b ≠ s.memory ((a + 1 + signExtend (instr &&& 0x1FF) 9) % 65536) →
        (execute instr s).memory b = s.memory b) ∧
      (∀ i, i < 8 → (execute instr s).reg i = s.reg i) ∧
      (execute instr s).reg R_COND = s.reg R_COND) ∧
    (instr >>> 12 = OP_STR →
      (execute instr s).memory
          ((s.reg ((instr >>> 6) &&& 0x7) + signExtend (instr &&& 0x3F) 6) % 65536) =
        s.reg ((instr >>> 9) &&& 0x7) ∧
      (∀ b, b ≠ (s.reg ((instr >>> 6) &&& 0x7) + signExtend (instr &&& 0x3F) 6) % 65536 →
        (execute instr s).memory b = s.memory b) ∧
      (∀ i, i < 8 → (execute instr s).reg i = s.reg i) ∧
      (execute instr s).reg R_COND = s.reg R_COND) := by
  generalize hoff : signExtend (instr &&& 0x1FF) 9 = off
  generalize hoff6 : signExtend (instr &&& 0x3F) 6 = off6
  generalize hsrc : (instr >>> 9) &&& 0x7 = src
  have haddr : (s.reg R_PC + off) % 65536 = (a + 1 + off) % 65536 := by
    rw [hpc, Nat.mod_add_mod]
  refine ⟨?_, ?_, ?_⟩
  · intro hop
    rw [execute_ST instr s hop]
    simp only [opST, memWrite, hoff, hsrc, haddr, store_same]
    refine ⟨?_, fun b hb => store_other _ _ _ _ hb, ?_, ?_⟩ <;> trivial
  · intro hop hk
    rw [execute_STI instr s hop]
    simp only [opSTI, memWrite, hoff, hsrc, haddr, memRead_plain _ _ hk, store_same]
    refine ⟨?_, fun b hb => store_other _ _ _ _ hb, ?_, ?_⟩ <;> trivial
  · intro hop
    rw [execute_STR instr s hop]
    simp only [opSTR, memWrite, hoff6, hsrc, store_same]
    refine ⟨?_, fun b hb => store_other _ _ _ _ hb, ?_, ?_⟩ <;> trivial

theorem store_spec_witness :
    (demoState.reg R_PC = (0x2FFF + 1) % 65536 ∧ 0xB001 >>> 12 = OP_STI ∧
        (0x2FFF + 1 + signExtend (0xB001 &&& 0x1FF) 9) % 65536 ≠ MR_KBSR) ∧
      (execute 0xB001 demoState).memory
          (demoState.memory ((0x2FFF + 1 + signExtend (0xB001 &&& 0x1FF) 9) % 65536)) =
        demoState.reg ((0xB001 >>> 9) &&& 0x7) :=
  ⟨⟨by decide, by decide, by decide⟩,
    ((store_spec demoState 0xB001 0x2FFF (by decide)).2.1 (by decide) (by decide)).1⟩

/-! ## The three-instruction program (C9) -/

/-- One round of the loop at an address other than the keyboard status
register: the word at the program counter is executed with the counter
advanced. -/
theorem cycle_plain (s : VM) (pc w : Nat) (hpc : s.reg R_PC = pc) (hk : pc ≠ MR_KBSR)
    (hw : s.memory pc = w) :
    cycle s = execute w { s with reg := store s.reg R_PC ((pc + 1) % 65536) } := by
  unfold cycle
  rw [fetch_plain s (by rw [hpc]; exact hk)]
  simp only [hpc, hw]

/-- The loop does not move a state that is not running. -/
theorem run_stopped (n : Nat) (s : VM) (h : s.status ≠ Status.running) : run n s = s := by
  cases n with
  | zero => rfl
  | succ n => simp [run, h]

/-- The loop on a running state performs one round and goes on. -/
theorem run_succ (n : Nat) (s : VM) (h : s.status = Status.running) :
    run (n + 1) s = run n (cycle s) := by
  simp [run, h]

/-- C9: from a running state with the program counter at `0x3000` and
`memory[0x3000..0x3002] = 0x5020, 0x1025, 0xF025` (whatever the other memory
words, the registers, the input), the loop is still running after one and after
two instructions, and stops with the third in the state HALTED, reached through
the HALT trap, which has written its notice; more rounds of fuel change
nothing; in the final state `R0 = 5` and the condition flag is POSITIVE. -/
theorem halt_program_spec (s : VM) (hpc : s.reg R_PC = 0x3000)
    (h0 : s.memory 0x3000 = 0x5020) (h1 : s.memory 0x3001 = 0x1025)
    (h2 : s.memory 0x3002 = 0xF025) (hrun : s.status = Status.running) :
    (run 1 s).status = Status.running ∧
    (run 2 s).status = Status.running ∧
    (run 3 s).status = Status.halted ∧
    (∀ n, run (3 + n) s = run 3 s) ∧
    (run 3 s).reg R_R0 = 5 ∧
    (run 3 s).reg R_COND = FL_POS ∧
    (run 3 s).output = s.output ++ haltBytes := by
  -- first round: AND R0,R0,#0
  have e1 : cycle s = opAND 0x5020 { s with reg := store s.reg R_PC 0x3001 } := by
    rw [cycle_plain s 0x3000 0x5020 hpc (by decide) h0, execute_AND _ _ (by decide)]
  have a9 : (0x5020 >>> 9) &&& 0x7 = 0 := by decide
  have a6 : (0x5020 >>> 6) &&& 0x7 = 0 := by decide
  have a5 : (0x5020 >>> 5) &&& 0x1 = 1 := by decide
  have ai : signExtend (0x5020 &&& 0x1F) 5 = 0 := by decide
  have c1 : cycle s = { s with reg := store (store s.reg R_PC 0x3001) 0 0 } := by
    rw [e1]
    simp only [opAND, a9, a6, a5, ai]
    simp
  have s1pc : (cycle s).reg R_PC = 0x3001 := by rw [c1]; simp [store, R_PC]
  have s1mem : (cycle s).memory = s.memory := by rw [c1]
  have s1st : (cycle s).status = Status.running := by rw [c1]; exact hrun
  have s1out : (cycle s).output = s.output := by rw [c1]
  have s1r0 : (cycle s).reg 0 = 0 := by rw [c1]; simp [store]
  -- second round: ADD R0,R0,#5
  have b9 : (0x1025 >>> 9) &&& 0x7 = 0 := by decide
  have b6 : (0x1025 >>> 6) &&& 0x7 = 0 := by decide
  have b5 : (0x1025 >>> 5) &&& 0x1 = 1 := by decide
  have bi : signExtend (0x1025 &&& 0x1F) 5 = 5 := by decide
  have c2 : cycle (cycle s) =
      { cycle s with reg := store (store (store (cycle s).reg R_PC 0x3002) 0 5) R_COND FL_POS } := by
    rw [cycle_plain (cycle s) 0x3001 0x1025 s1pc (by decide) (by rw [s1mem]; exact h1),
      execute_ADD _ _ (by decide)]
    simp only [opADD, b9, b6, b5, bi]
    have hr : store (cycle s).reg R_PC ((0x3001 + 1) % 65536) 0 = 0 := by
      simp [store, R_PC, s1r0]
    simp [updateFlags, hr]
  have s2pc : (cycle (cycle s)).reg R_PC = 0x3002 := by rw [c2]; simp [store, R_PC, R_COND]
  have s2mem : (cycle (cycle s)).memory = s.memory := by rw [c2]; exact s1mem
  have s2st : (cycle (cycle s)).status = Status.running := by rw [c2]; exact s1st
  have s2out : (cycle (cycle s)).output = s.output := by rw [c2]; exact s1out
  have s2r0 : (cycle (cycle s)).reg R_R0 = 5 := by rw [c2]; simp [store, R_R0, R_COND]
  have s2cond : (cycle (cycle s)).reg R_COND = FL_POS := by rw [c2]; simp [store]
  -- third round: TRAP HALT
  have tv : (0xF025 &&& 0xFF) = 0x25 := by decide
  have c3 : cycle (cycle (cycle s)) =
      { cycle (cycle s) with
        reg := store (store (cycle (cycle s)).reg R_PC 0x3003) R_R7 0x3003,
        output := (cycle (cycle s)).output ++ haltBytes,
        status := Status.halted } := by
    rw [cycle_plain (cycle (cycle s)) 0x3002 0xF025 s2pc (by decide) (by rw [s2mem]; exact h2),
      execute_TRAP _ _ (by decide)]
    simp [opTRAP, tv, trapHALT, TRAP_GETC, TRAP_OUT, TRAP_PUTS, TRAP_IN, TRAP_PUTSP, TRAP_HALT]
  have r1 : run 1 s = cycle s := by rw [run_succ 0 s hrun]; rfl
  have r2 : run 2 s = cycle (cycle s) := by
    rw [run_succ 1 s hrun, run_succ 0 _ s1st]; rfl
  have r3 : run 3 s = cycle (cycle (cycle s)) := by
    rw [run_succ 2 s hrun, run_succ 1 _ s1st, run_succ 0 _ s2st]; rfl
  have s3st : (cycle (cycle (cycle s))).status = Status.halted := by rw [c3]
  refine ⟨by rw [r1]; exact s1st, by rw [r2]; exact s2st, by rw [r3]; exact s3st, ?_, ?_, ?_, ?_⟩
  · intro n
    have e : 3 + n = n + 1 + 1 + 1 := by omega
    rw [e, run_succ _ s hrun, run_succ _ _ s1st, run_succ _ _ s2st, r3]
    exact run_stopped n _ (by rw [s3st]; decide)
  · rw [r3, c3]
    simp only [store, R_R0, R_R7, R_PC]
    simpa [R_R0] using s2r0
  · rw [r3, c3]
    simp only [store, R_COND, R_R7, R_PC]
    simpa [R_COND] using s2cond
  · rw [r3, c3]
    simp [s2out]

theorem halt_program_spec_witness :
    (demoState.reg R_PC = 0x3000 ∧ demoState.memory 0x3000 = 0x5020 ∧
        demoState.memory 0x3001 = 0x1025 ∧ demoState.memory 0x3002 = 0xF025 ∧
        demoState.status = Status.running) ∧
      (run 3 demoState).status = Status.halted ∧ (run 3 demoState).reg R_R0 = 5 ∧
      (run 3 demoState).reg R_COND = FL_POS :=
  have h := halt_program_spec demoState (by decide) (by decide) (by decide) (by decide)
    (by decide)
  ⟨⟨by decide, by decide, by decide, by decide, by decide⟩, h.2.2.1, h.2.2.2.2.1, h.2.2.2.2.2.1⟩

/-! ## The image loader (C10) -/

/-- Reading a big-endian word on the little-endian host and swapping its
bytes gives the word back. -/
theorem swap16_bytes (w : Nat) (hw : w < 65536) : swap16 (w / 256 + 256 * (w % 256)) = w := by
  unfold swap16
  have hx : (w / 256 + 256 * (w % 256)) >>> 8 = w % 256 := by
    rw [Nat.shiftRight_eq_div_pow]; omega
  have hl : (w / 256 + 256 * (w % 256)) <<< 8 = 2 ^ 8 * (w / 256 + 256 * (w % 256)) := by
    rw [Nat.shiftLeft_eq, Nat.mul_comm]
  have hb : w % 256 < 2 ^ 8 := by omega
  rw [hx, hl, Nat.or_comm, ← Nat.mul_add_lt_is_or hb]
  omega

/-- The bytes of a list of words, two per word. -/
theorem length_wordBytes (ws : List Nat) :
    (ws.flatMap (fun w => [w / 256, w % 256])).length = 2 * ws.length := by
  induction ws with
  | nil => rfl
  | cons w ws ih => simp [List.flatMap_cons, ih]; omega

/-- What `fread` stores when the file holds the words `ws` and at least that
many are asked for: the count is `ws.length`, and the words land, unswapped,
at `p, p+1, ...`. -/
theorem freadWords_spec (ws : List Nat) :
    ∀ (memory : Nat → Nat) (p count : Nat), ws.length ≤ count →
      (freadWords memory p count (ws.flatMap (fun w => [w / 256, w % 256]))).2 = ws.length ∧
      ∀ b, (freadWords memory p count (ws.flatMap (fun w => [w / 256, w % 256]))).1 b =
        if p ≤ b ∧ b < p + ws.length then
          ws.getD (b - p) 0 / 256 + 256 * (ws.getD (b - p) 0 % 256)
        else memory b := by
  induction ws with
  | nil =>
    intro memory p count _
    have hno : ∀ b, ¬ (p ≤ b ∧ b < p) := fun b => by omega
    cases count <;> simp [freadWords, hno]
  | cons w ws ih =>
    intro memory p count hc
    cases count with
    | zero => simp at hc
    | succ c =>
      have hc2 : ws.length ≤ c := by simpa using hc
      obtain ⟨ih1, ih2⟩ := ih (store memory p (w / 256 + 256 * (w % 256))) (p + 1) c hc2
      have hflat : (w :: ws).flatMap (fun w => [w / 256, w % 256]) =
          w / 256 :: w % 256 :: ws.flatMap (fun w => [w / 256, w % 256]) := by
        simp [List.flatMap_cons]
      rw [hflat]
      simp only [freadWords, ih1, List.length_cons, true_and]
      intro b
      rw [ih2 b]
      by_cases hbp : b = p
      · subst hbp
        simp
      · by_cases hin : p + 1 ≤ b ∧ b < p + 1 + ws.length
        · have hin2 : p ≤ b ∧ b < p + (ws.length + 1) := by omega
          have hsub : b - p = (b - (p + 1)) + 1 := by omega
          rw [if_pos hin, if_pos hin2, hsub, List.getD_cons_succ]
        · have hin2 : ¬ (p ≤ b ∧ b < p + (ws.length + 1)) := by omega
          rw [if_neg hin, if_neg hin2, store_other _ _ _ _ hbp]

/-- The byte-swap loop swaps the `n` words from `p` on and nothing else. -/
theorem swapLoop_spec (n : Nat) :
    ∀ (memory : Nat → Nat) (p b : Nat),
      swapLoop memory p n b = if p ≤ b ∧ b < p + n then swap16 (memory b) else memory b := by
  induction n with
  | zero =>
    intro memory p b
    have : ¬ (p ≤ b ∧ b < p) := by omega
    simp [swapLoop, this]
  | succ n ih =>
    intro memory p b
    simp only [swapLoop]
    rw [ih]
    by_cases hbp : b = p
    · subst hbp
      simp
    · by_cases hin : p + 1 ≤ b ∧ b < p + 1 + n
      · have hin2 : p ≤ b ∧ b < p + (n + 1) := by omega
        rw [if_pos hin, if_pos hin2, store_other _ _ _ _ hbp]
      · have hin2 : ¬ (p ≤ b ∧ b < p + (n + 1)) := by omega
        rw [if_neg hin, if_neg hin2, store_other _ _ _ _ hbp]

/-- The part of C10 that the code does: for an origin `o` from `1` to `65535`
and words `ws` that fit below the end of memory, loading the image leaves
`memory[o + i] = ws[i]` for every `i < ws.length` and every other word as it
was. -/
theorem readImageFile_loads (s : VM) (o : Nat) (ws : List Nat) (ho : 1 ≤ o)
    (ho2 : o < 65536) (hlen : o + ws.length ≤ 65536) (hws : ∀ w ∈ ws, w < 65536) :
    ∃ t, readImageFile (imageBytes o ws) s = some t ∧
      (∀ i, i < ws.length → t.memory (o + i) = ws.getD i 0) ∧
      (∀ b, b < o ∨ o + ws.length ≤ b → t.memory b = s.memory b) := by
  have hmax : (MEMORY_MAX - o) % 65536 = 65536 - o := by
    simp only [MEMORY_MAX]; omega
  have hfit : ws.length ≤ 65536 - o := by omega
  obtain ⟨hcount, hraw⟩ := freadWords_spec ws s.memory o (65536 - o) hfit
  have heven : ¬ ((ws.flatMap (fun w => [w / 256, w % 256])).length % 2 = 1 ∧
      (ws.flatMap (fun w => [w / 256, w % 256])).length / 2 < 65536 - o) := by
    rw [length_wordBytes]; omega
  have hflat : imageBytes o ws =
      o / 256 :: o % 256 :: ws.flatMap (fun w => [w / 256, w % 256]) := by
    simp [imageBytes, List.flatMap_cons]
  generalize hr : freadWords s.memory o (65536 - o)
    (ws.flatMap (fun w => [w / 256, w % 256])) = r at hcount hraw
  refine ⟨{ s with memory := swapLoop r.1 o ws.length }, ?_, ?_, ?_⟩
  · rw [hflat]
    simp only [readImageFile, swap16_bytes o ho2, hmax, heven, if_false, hr, hcount]
  · intro i hi
    have hin : o ≤ o + i ∧ o + i < o + ws.length := by omega
    simp only [swapLoop_spec, hraw, if_pos hin, Nat.add_sub_cancel_left]
    apply swap16_bytes
    rw [List.getD_eq_getElem _ _ hi]
    exact hws _ (List.getElem_mem _)
  · intro b hb
    have hout : ¬ (o ≤ b ∧ b < o + ws.length) := by omega
    simp only [swapLoop_spec, hraw, if_neg hout]

/-- C10 (the code departs from it): for the image with origin `0` and the one
word `0x1234`, bytes `00 00 12 34`, `max_read = MEMORY_MAX - origin` is `65536`
cut to 16 bits, which is `0`; `fread` is asked for no words and `memory[0]`
keeps its old value `0` instead of receiving `0x1234`. -/
theorem readImageFile_origin_zero :
    imageBytes 0 [0x1234] = [0x00, 0x00, 0x12, 0x34] ∧
    0 + [0x1234].length ≤ 65536 ∧
    (readImageFile (imageBytes 0 [0x1234]) (startState [])).map (fun t => t.memory 0)
      = some 0 ∧
    (readImageFile (imageBytes 0 [0x1234]) (startState [])).map (fun t => t.memory 0)
      ≠ some 0x1234 := by
  decide

/-! ## Reserved opcodes: the `switch` -/

/-- The `switch` alone on a reserved opcode: for an instruction word whose
opcode bits are RES (1101) or RTI (1000), executed in the state the fetch
leaves (program counter advanced to `(a + 1) mod 2^16`), the process is
aborted: the loop performs no further round whatever the fuel, and no
register, no memory word, nothing of the input and nothing of the output is
changed. -/
theorem reserved_switch (s : VM) (instr a : Nat)
    (hop : instr >>> 12 = OP_RES ∨ instr >>> 12 = OP_RTI)
    (hpc : s.reg R_PC = (a + 1) % 65536) :
    (execute instr s).status = Status.aborted ∧
    (∀ n, run n (execute instr s) = execute instr s) ∧
    (execute instr s).reg R_PC = (a + 1) % 65536 ∧
    (∀ i, (execute instr s).reg i = s.reg i) ∧
    (∀ b, (execute instr s).memory b = s.memory b) ∧
    (execute instr s).output = s.output ∧
    (execute instr s).input = s.input := by
  have he : execute instr s = { s with status := Status.aborted } := by
    rcases hop with h | h <;>
      simp [execute, h, OP_BR, OP_ADD, OP_LD, OP_ST, OP_JSR, OP_AND, OP_LDR, OP_STR, OP_RTI,
        OP_NOT, OP_LDI, OP_STI, OP_JMP, OP_RES, OP_LEA, OP_TRAP]
  rw [he]
  refine ⟨rfl, fun n => run_stopped n _ (by simp), hpc, fun _ => rfl, fun _ => rfl, rfl, rfl⟩

/-! ## Register-mode JSR (C20) -/

/-- C20: for a register-mode JSR (opcode 0100, bit 11 clear) fetched from
address `a`, `R7` receives `(a + 1) mod 2^16` before the base register (bits
8-6) is read: with a base other than `R7` the program counter becomes the value
the base register held before the instruction; with base `R7` the program
counter becomes `(a + 1) mod 2^16`, and the outcome is the same whatever `R7`
held before, so that value is lost. -/
theorem jsrr_spec (s : VM) (instr a : Nat) (hop : instr >>> 12 = OP_JSR)
    (hmode : (instr >>> 11) &&& 1 = 0) (hpc : s.reg R_PC = (a + 1) % 65536) :
    (execute instr s).reg R_R7 = (a + 1) % 65536 ∧
    ((instr >>> 6) &&& 0x7 ≠ R_R7 →
      (execute instr s).reg R_PC = s.reg ((instr >>> 6) &&& 0x7)) ∧
    ((instr >>> 6) &&& 0x7 = R_R7 →
      (execute instr s).reg R_PC = (a + 1) % 65536 ∧
      ∀ v, execute instr { s with reg := store s.reg R_R7 v } = execute instr s) := by
  have hpc8 : s.reg 8 = (a + 1) % 65536 := by simpa [R_PC] using hpc
  generalize hb : (instr >>> 6) &&& 0x7 = base
  have e : ∀ t : VM, execute instr t =
      { t with reg := (store (store t.reg R_R7 (t.reg R_PC)) R_PC
                        (store t.reg R_R7 (t.reg R_PC) base)) } := by
    intro t
    rw [execute_JSR instr t hop]
    simp only [opJSR, hmode, hb]
    simp
  refine ⟨?_, ?_, ?_⟩
  · rw [e]; simp [store, R_R7, R_PC, hpc8]
  · intro hne
    rw [e]
    simp [store, hne]
  · intro heq
    subst heq
    refine ⟨?_, ?_⟩
    · rw [e]; simp [store, hpc8, R_PC]
    · intro v
      rw [e, e]
      have hf : store (store (store s.reg R_R7 v) R_R7 (store s.reg R_R7 v R_PC)) R_PC
            (store (store s.reg R_R7 v) R_R7 (store s.reg R_R7 v R_PC) R_R7) =
          store (store s.reg R_R7 (s.reg R_PC)) R_PC
            (store s.reg R_R7 (s.reg R_PC) R_R7) := by
        funext j
        simp only [store, R_R7, R_PC]
        split_ifs <;> simp_all
      simp only [hf]

theorem jsrr_spec_witness :
    (0x41C0 >>> 12 = OP_JSR ∧ (0x41C0 >>> 11) &&& 1 = 0 ∧
        (regState 0 FL_ZRO).reg R_PC = (65535 + 1) % 65536 ∧ (0x41C0 >>> 6) &&& 0x7 = R_R7) ∧
      (execute 0x41C0 (regState 0 FL_ZRO)).reg R_PC = (65535 + 1) % 65536 :=
  ⟨⟨by decide, by decide, by decide, by decide⟩,
    ((jsrr_spec (regState 0 FL_ZRO) 0x41C0 65535 (by decide) (by decide) (by decide)).2.2
      (by decide)).1⟩

/-! ## Facts about the trap routines -/

/-- The byte `putc((char)w, stdout)` writes for a word `w` is its low byte. -/
theorem toByte_toChar (n : Nat) : toByte (toChar ((n : Nat) : Int)) = n % 256 := by
  unfold toByte toChar
  have h : (((n : Int) + 128) % 256 - 128) % 256 = ((n % 256 : Nat) : Int) := by omega
  rw [h, Int.toNat_ofNat]

/-- A `char` made from a non-negative value is zero exactly when the low byte
of the value is zero. -/
theorem toChar_eq_zero (n : Nat) : toChar ((n : Nat) : Int) = 0 ↔ n % 256 = 0 := by
  unfold toChar
  omega

theorem getchar_reg (s : VM) : (getchar s).2.reg = s.reg := by
  unfold getchar; split <;> rfl

theorem getchar_memory (s : VM) : (getchar s).2.memory = s.memory := by
  unfold getchar; split <;> rfl

theorem getchar_output (s : VM) : (getchar s).2.output = s.output := by
  unfold getchar; split <;> rfl

theorem getchar_status (s : VM) : (getchar s).2.status = s.status := by
  unfold getchar; split <;> rfl

/-- With a byte left in the stream, `getchar` returns it and removes it; the
stdio buffer loses it, or is filled with all the bytes that follow. -/
theorem getchar_cons (s : VM) (b : Nat) (rest : List Nat) (h : s.input = b :: rest) :
    getchar s = ((b : Int),
      { s with input := rest,
               buffered := if s.buffered = 0 then rest.length else s.buffered - 1 }) := by
  unfold getchar; rw [h]

/-- The `TRAP_PUTS` loop ends inside memory when a zero word lies between the
start and the end of the array. -/
theorem putsLoop_ok (memory : Nat → Nat) :
    ∀ (fuel addr : Nat), (∃ z, addr ≤ z ∧ z < addr + fuel ∧ memory z = 0) →
      (putsLoop memory fuel addr).2 = true := by
  intro fuel
  induction fuel with
  | zero => rintro addr ⟨z, h1, h2, _⟩; omega
  | succ f ih =>
    rintro addr ⟨z, h1, h2, h3⟩
    by_cases h0 : memory addr = 0
    · simp [putsLoop, h0]
    · have hz : z ≠ addr := fun e => h0 (e ▸ h3)
      simp only [putsLoop, h0, if_false]
      exact ih (addr + 1) ⟨z, by omega, by omega, h3⟩

/-- The `TRAP_PUTSP` loop ends inside memory under the same condition. -/
theorem putspLoop_ok (memory : Nat → Nat) :
    ∀ (fuel addr : Nat), (∃ z, addr ≤ z ∧ z < addr + fuel ∧ memory z = 0) →
      (putspLoop memory fuel addr).2 = true := by
  intro fuel
  induction fuel with
  | zero => rintro addr ⟨z, h1, h2, _⟩; omega
  | succ f ih =>
    rintro addr ⟨z, h1, h2, h3⟩
    by_cases h0 : memory addr = 0
    · simp [putspLoop, h0]
    · have hz : z ≠ addr := fun e => h0 (e ▸ h3)
      simp only [putspLoop, h0, if_false]
      exact ih (addr + 1) ⟨z, by omega, by omega, h3⟩

/-- What the `TRAP_PUTS` loop writes when the first zero word lies `k` words
after the start, inside the array: the low bytes of the `k` words before it. -/
theorem putsLoop_spec (memory : Nat → Nat) :
    ∀ (k addr fuel : Nat), k < fuel → memory (addr + k) = 0 →
      (∀ i, i < k → memory (addr + i) ≠ 0) →
      putsLoop memory fuel addr =
        ((List.range k).map (fun i => memory (addr + i) % 256), true) := by
  intro k
  induction k with
  | zero =>
    intro addr fuel hf hz _
    cases fuel with
    | zero => omega
    | succ f => simp [putsLoop, show memory addr = 0 from by simpa using hz]
  | succ k ih =>
    intro addr fuel hf hz hnz
    cases fuel with
    | zero => omega
    | succ f =>
      have h0 : memory addr ≠ 0 := by simpa using hnz 0 (by omega)
      have hz2 : memory (addr + 1 + k) = 0 := by
        rw [show addr + 1 + k = addr + (k + 1) from by omega]; exact hz
      have hnz2 : ∀ i, i < k → memory (addr + 1 + i) ≠ 0 := by
        intro i hi
        rw [show addr + 1 + i = addr + (i + 1) from by omega]
        exact hnz (i + 1) (by omega)
      simp only [putsLoop, h0, if_false, ih (addr + 1) f (by omega) hz2 hnz2, toByte_toChar,
        List.range_succ_eq_map, List.map_cons, List.map_map, Nat.add_zero]
      congr 2
      apply List.map_congr_left
      intro i _
      simp only [Function.comp, Nat.succ_eq_add_one]
      rw [show addr + 1 + i = addr + (i + 1) from by omega]

/-- What the `TRAP_PUTSP` loop writes under the same condition: the bytes of
`putspWord` for each of the `k` words before the first zero word. -/
theorem putspLoop_spec (memory : Nat → Nat) :
    ∀ (k addr fuel : Nat), k < fuel → memory (addr + k) = 0 →
      (∀ i, i < k → memory (addr + i) ≠ 0) →
      putspLoop memory fuel addr =
        ((List.range k).flatMap (fun i => putspWord (memory (addr + i))), true) := by
  intro k
  induction k with
  | zero =>
    intro addr fuel hf hz _
    cases fuel with
    | zero => omega
    | succ f => simp [putspLoop, show memory addr = 0 from by simpa using hz]
  | succ k ih =>
    intro addr fuel hf hz hnz
    cases fuel with
    | zero => omega
    | succ f =>
      have h0 : memory addr ≠ 0 := by simpa using hnz 0 (by omega)
      have hz2 : memory (addr + 1 + k) = 0 := by
        rw [show addr + 1 + k = addr + (k + 1) from by omega]; exact hz
      have hnz2 : ∀ i, i < k → memory (addr + 1 + i) ≠ 0 := by
        intro i hi
        rw [show addr + 1 + i = addr + (i + 1) from by omega]
        exact hnz (i + 1) (by omega)
      simp only [putspLoop, h0, if_false, ih (addr + 1) f (by omega) hz2 hnz2,
        List.range_succ_eq_map, List.flatMap_cons, List.flatMap_map, Nat.add_zero]
      congr 2
      apply List.flatMap_congr
      intro i _
      simp only [Function.comp, Nat.succ_eq_add_one]
      rw [show addr + 1 + i = addr + (i + 1) from by omega]

/-- The branch `TRAP_GETC` writes only `R0` and the condition register. -/
theorem trapGETC_reg (s : VM) (i : Nat) (h0 : i ≠ R_R0) (hc : i ≠ R_COND) :
    (trapGETC s).reg i = s.reg i := by
  unfold trapGETC
  simp only []
  rw [updateFlags_reg _ _ _ hc]
  simp [store, h0, getchar_reg]

/-- The branch `TRAP_IN` writes only `R0` and the condition register. -/
theorem trapIN_reg (s : VM) (i : Nat) (h0 : i ≠ R_R0) (hc : i ≠ R_COND) :
    (trapIN s).reg i = s.reg i := by
  unfold trapIN
  simp only []
  rw [updateFlags_reg _ _ _ hc]
  simp [store, h0, getchar_reg]

theorem trapGETC_status (s : VM) : (trapGETC s).status = s.status := by
  unfold trapGETC
  simp only []
  rw [updateFlags_status]
  simp [getchar_status]

theorem trapIN_status (s : VM) : (trapIN s).status = s.status := by
  unfold trapIN
  simp only []
  rw [updateFlags_status]
  simp [getchar_status]

/-! ## The TRAP instruction (C12) -/

/-- C12: for a TRAP instruction word (opcode 1111) fetched from address `a` and
executed while the loop is running, whatever its low 8 bits, `R7` afterwards
holds the return address `(a + 1) mod 2^16`; the loop is halted exactly when
the low 8 bits are `0x25`; and, where a PUTS or PUTSP string has its zero word
inside memory, the loop leaves the running state exactly when the low 8 bits
are `0x25`. -/
theorem trap_spec (s : VM) (instr a : Nat) (hop : instr >>> 12 = OP_TRAP)
    (hpc : s.reg R_PC = (a + 1) % 65536) (hrun : s.status = Status.running) :
    (execute instr s).reg R_R7 = (a + 1) % 65536 ∧
    ((execute instr s).status = Status.halted ↔ instr &&& 0xFF = TRAP_HALT) ∧
    ((instr &&& 0xFF = TRAP_PUTS ∨ instr &&& 0xFF = TRAP_PUTSP →
        ∃ z, s.reg R_R0 ≤ z ∧ z < 65536 ∧ s.memory z = 0) →
      ((execute instr s).status ≠ Status.running ↔ instr &&& 0xFF = TRAP_HALT)) := by
  rw [execute_TRAP instr s hop]
  generalize hv : instr &&& 0xFF = vect
  have h7 : (store s.reg R_R7 (s.reg R_PC)) R_R7 = (a + 1) % 65536 := by
    rw [store_same, hpc]
  have h70 : R_R7 ≠ R_R0 := by decide
  have h7c : R_R7 ≠ R_COND := by decide
  simp only [opTRAP, hv]
  by_cases c1 : vect = TRAP_GETC
  · subst c1
    simp only [if_true]
    rw [trapGETC_reg _ _ h70 h7c, trapGETC_status]
    simp [hpc, hrun, TRAP_GETC, TRAP_HALT]
  by_cases c2 : vect = TRAP_OUT
  · subst c2
    simp [trapOUT, hpc, hrun, TRAP_GETC, TRAP_OUT, TRAP_HALT]
  by_cases c3 : vect = TRAP_PUTS
  · subst c3
    simp only [trapPUTS, TRAP_GETC, TRAP_OUT, TRAP_PUTS, TRAP_HALT, hrun]
    refine ⟨by simpa using h7, ?_, ?_⟩
    · simp only [if_true, (by decide : ¬ (0x22 : Nat) = 0x20), (by decide : ¬ (0x22 : Nat) = 0x21),
        if_false]
      split <;> simp
    · intro hz
      obtain ⟨z, hz1, hz2, hz3⟩ := hz (by simp)
      have hr0 : (store s.reg R_R7 (s.reg R_PC)) R_R0 = s.reg R_R0 :=
        store_other _ _ _ _ (by decide)
      have hok := putsLoop_ok s.memory (MEMORY_MAX - s.reg R_R0) (s.reg R_R0)
        ⟨z, hz1, by simp only [MEMORY_MAX]; omega, hz3⟩
      simp [hr0, hok]
  by_cases c4 : vect = TRAP_IN
  · subst c4
    simp only [TRAP_GETC, TRAP_OUT, TRAP_PUTS, TRAP_IN, TRAP_HALT,
      (by decide : ¬ (0x23 : Nat) = 0x20), (by decide : ¬ (0x23 : Nat) = 0x21),
      (by decide : ¬ (0x23 : Nat) = 0x22), if_false, if_true]
    rw [trapIN_reg _ _ h70 h7c, trapIN_status]
    simp [hpc, hrun]
  by_cases c5 : vect = TRAP_PUTSP
  · subst c5
    simp only [trapPUTSP, TRAP_GETC, TRAP_OUT, TRAP_PUTS, TRAP_IN, TRAP_PUTSP, TRAP_HALT, hrun]
    refine ⟨by simpa using h7, ?_, ?_⟩
    · simp only [if_true, (by decide : ¬ (0x24 : Nat) = 0x20), (by decide : ¬ (0x24 : Nat) = 0x21),
        (by decide : ¬ (0x24 : Nat) = 0x22), (by decide : ¬ (0x24 : Nat) = 0x23), if_false]
      split <;> simp
    · intro hz
      obtain ⟨z, hz1, hz2, hz3⟩ := hz (by simp)
      have hr0 : (store s.reg R_R7 (s.reg R_PC)) R_R0 = s.reg R_R0 :=
        store_other _ _ _ _ (by decide)
      have hok := putspLoop_ok s.memory (MEMORY_MAX - s.reg R_R0) (s.reg R_R0)
        ⟨z, hz1, by simp only [MEMORY_MAX]; omega, hz3⟩
      simp [hr0, hok]
  by_cases c6 : vect = TRAP_HALT
  · subst c6
    simp [trapHALT, hpc, TRAP_GETC, TRAP_OUT, TRAP_PUTS, TRAP_IN, TRAP_PUTSP, TRAP_HALT]
  · simp [c1, c2, c3, c4, c5, c6, hpc, hrun]

theorem trap_spec_witness :
    (0xF025 >>> 12 = OP_TRAP ∧ (regState 0 FL_ZRO).reg R_PC = (65535 + 1) % 65536 ∧
        (regState 0 FL_ZRO).status = Status.running ∧ 0xF025 &&& 0xFF = TRAP_HALT) ∧
      (execute 0xF025 (regState 0 FL_ZRO)).reg R_R7 = (65535 + 1) % 65536 ∧
      (execute 0xF025 (regState 0 FL_ZRO)).status = Status.halted :=
  have h := trap_spec (regState 0 FL_ZRO) 0xF025 65535 (by decide) (by decide) (by decide)
  ⟨⟨by decide, by decide, by decide, by decide⟩, h.1, h.2.1.2 (by decide)⟩

/-! ## PUTS (C13) -/

/-- C13: when the first zero word at or after address `R0` lies at an address
`z <= 65535`, TRAP PUTS (vector `0x22`) appends to the output the low bytes of
`memory[R0], ..., memory[z-1]`, in order, and nothing else; memory, `R0..R6`,
the condition register and the loop status are unchanged.  In particular when
memory at `R0` holds `'H'`, `'I'`, `0` the bytes appended are `"HI"`. -/
theorem puts_spec (s : VM) (instr z : Nat) (hop : instr >>> 12 = OP_TRAP)
    (hv : instr &&& 0xFF = TRAP_PUTS) (hr0 : s.reg R_R0 ≤ z) (hz : z ≤ 65535)
    (hzero : s.memory z = 0)
    (hfirst : ∀ i, s.reg R_R0 ≤ i → i < z → s.memory i ≠ 0) :
    (execute instr s).output =
      s.output ++ (List.range (z - s.reg R_R0)).map
        (fun i => s.memory (s.reg R_R0 + i) % 256) ∧
    (∀ b, (execute instr s).memory b = s.memory b) ∧
    (∀ i, i < 7 → (execute instr s).reg i = s.reg i) ∧
    (execute instr s).reg R_COND = s.reg R_COND ∧
    (execute instr s).status = s.status ∧
    (z = s.reg R_R0 + 2 → s.memory (s.reg R_R0) = 72 → s.memory (s.reg R_R0 + 1) = 73 →
      (execute instr s).output = s.output ++ [72, 73]) := by
  have hloop := putsLoop_spec s.memory (z - s.reg R_R0) (s.reg R_R0)
    (MEMORY_MAX - s.reg R_R0) (by simp only [MEMORY_MAX]; omega)
    (by rw [Nat.add_sub_cancel' hr0]; exact hzero)
    (fun i hi => hfirst _ (by omega) (by omega))
  have hr : (store s.reg R_R7 (s.reg R_PC)) R_R0 = s.reg R_R0 :=
    store_other _ _ _ _ (by decide)
  have he : execute instr s =
      { s with reg := store s.reg R_R7 (s.reg R_PC),
               output := s.output ++ (List.range (z - s.reg R_R0)).map
                 (fun i => s.memory (s.reg R_R0 + i) % 256) } := by
    rw [execute_TRAP instr s hop]
    simp only [opTRAP, hv, trapPUTS, hr, hloop]
    simp [TRAP_PUTS, TRAP_GETC, TRAP_OUT]
  have hout := congrArg VM.output he
  simp only [] at hout
  refine ⟨hout, ?_, ?_, ?_, ?_, ?_⟩
  · intro b; rw [he]
  · intro i hi
    rw [he]
    exact store_other _ _ _ _ (by simp only [R_R7]; omega)
  · rw [he]
    simp [store, R_COND, R_R7]
  · rw [he]
  · intro hz2 hH hI
    rw [hout]
    have hk : z - s.reg R_R0 = 2 := by omega
    rw [hk]
    simp [List.range_succ, hH, hI]

theorem puts_spec_witness :
    (0xF022 >>> 12 = OP_TRAP ∧ 0xF022 &&& 0xFF = TRAP_PUTS ∧
        (stringState 0x3010 [72, 73] []).reg R_R0 = 0x3010 ∧
        (stringState 0x3010 [72, 73] []).memory 0x3010 = 72 ∧
        (stringState 0x3010 [72, 73] []).memory 0x3011 = 73 ∧
        (stringState 0x3010 [72, 73] []).memory 0x3012 = 0) ∧
      (execute 0xF022 (stringState 0x3010 [72, 73] [])).output = [72, 73] :=
  ⟨⟨by decide, by decide, by decide, by decide, by decide, by decide⟩,
    (puts_spec (stringState 0x3010 [72, 73] []) 0xF022 0x3012 (by decide) (by decide)
      (by decide) (by decide) (by decide) (by decide)).2.2.2.2.2
      (by decide) (by decide) (by decide)⟩

/-! ## PUTSP (C18) -/

/-- The bytes one round of the PUTSP loop writes for a 16-bit word: the low
byte, then the high byte if it is not zero. -/
theorem putspWord_eq (w : Nat) (hw : w < 65536) :
    putspWord w = if w / 256 ≠ 0 then [w % 256, w / 256] else [w % 256] := by
  unfold putspWord
  have h8 : w >>> 8 = w / 256 := by rw [Nat.shiftRight_eq_div_pow]
  have hlo : w &&& 0xFF = w % 256 := Nat.and_pow_two_sub_one_eq_mod w 8
  have hhi : w / 256 % 256 = w / 256 := Nat.mod_eq_of_lt (by omega)
  simp only [h8, hlo, toByte_toChar, ne_eq, toChar_eq_zero, hhi, Nat.mod_mod]

/-- C18: when the first zero word at or after address `R0` lies at an address
`z <= 65535`, TRAP PUTSP (vector `0x24`) appends to the output, for each word
`memory[R0], ..., memory[z-1]` in order, its low byte (also when that byte is
zero) followed by its high byte if the high byte is not zero, and nothing
else; memory, `R0..R6`, the condition register and the loop status are
unchanged. -/
theorem putsp_spec (s : VM) (instr z : Nat) (hwf : s.WF) (hop : instr >>> 12 = OP_TRAP)
    (hv : instr &&& 0xFF = TRAP_PUTSP) (hr0 : s.reg R_R0 ≤ z) (hz : z ≤ 65535)
    (hzero : s.memory z = 0)
    (hfirst : ∀ i, s.reg R_R0 ≤ i → i < z → s.memory i ≠ 0) :
    (execute instr s).output =
      s.output ++ (List.range (z - s.reg R_R0)).flatMap
        (fun i => if s.memory (s.reg R_R0 + i) / 256 ≠ 0
          then [s.memory (s.reg R_R0 + i) % 256, s.memory (s.reg R_R0 + i) / 256]
          else [s.memory (s.reg R_R0 + i) % 256]) ∧
    (∀ b, (execute instr s).memory b = s.memory b) ∧
    (∀ i, i < 7 → (execute instr s).reg i = s.reg i) ∧
    (execute instr s).reg R_COND = s.reg R_COND ∧
    (execute instr s).status = s.status := by
  have hloop := putspLoop_spec s.memory (z - s.reg R_R0) (s.reg R_R0)
    (MEMORY_MAX - s.reg R_R0) (by simp only [MEMORY_MAX]; omega)
    (by rw [Nat.add_sub_cancel' hr0]; exact hzero)
    (fun i hi => hfirst _ (by omega) (by omega))
  have hr : (store s.reg R_R7 (s.reg R_PC)) R_R0 = s.reg R_R0 :=
    store_other _ _ _ _ (by decide)
  have hw : (fun i => putspWord (s.memory (s.reg R_R0 + i))) =
      (fun i => if s.memory (s.reg R_R0 + i) / 256 ≠ 0
        then [s.memory (s.reg R_R0 + i) % 256, s.memory (s.reg R_R0 + i) / 256]
        else [s.memory (s.reg R_R0 + i) % 256]) := by
    funext i
    exact putspWord_eq _ (hwf.2.1 _)
  rw [hw] at hloop
  have he : execute instr s =
      { s with reg := store s.reg R_R7 (s.reg R_PC),
               output := s.output ++ (List.range (z - s.reg R_R0)).flatMap
                 (fun i => if s.memory (s.reg R_R0 + i) / 256 ≠ 0
                   then [s.memory (s.reg R_R0 + i) % 256, s.memory (s.reg R_R0 + i) / 256]
                   else [s.memory (s.reg R_R0 + i) % 256]) } := by
    rw [execute_TRAP instr s hop]
    simp only [opTRAP, hv, trapPUTSP, hr, hloop]
    simp [TRAP_PUTS, TRAP_GETC, TRAP_OUT, TRAP_IN, TRAP_PUTSP]
  have hout := congrArg VM.output he
  simp only [] at hout
  refine ⟨hout, ?_, ?_, ?_, ?_⟩
  · intro b; rw [he]
  · intro i hi
    rw [he]
    exact store_other _ _ _ _ (by simp only [R_R7]; omega)
  · rw [he]
    simp [store, R_COND, R_R7]
  · rw [he]

/-- The example states built by `stringState` are well formed when their parts
are. -/
theorem stringState_WF (r0 : Nat) (ws input : List Nat) (hr : r0 < 65536)
    (hws : ∀ w ∈ ws, w < 65536) (hin : ∀ b ∈ input, b < 256) :
    (stringState r0 ws input).WF := by
  refine ⟨?_, ?_, hin⟩
  · intro i
    simp only [stringState, store]
    split <;> omega
  · intro a
    simp only [stringState]
    split
    · by_cases h : a - r0 < ws.length
      · rw [List.getD_eq_getElem _ _ h]
        exact hws _ (List.getElem_mem _)
      · rw [List.getD_eq_default _ _ (by omega)]
        omega
    · omega

theorem putsp_spec_witness :
    ((stringState 0x3010 [0x4948, 0x4100, 0x004A] []).WF ∧
        0xF024 >>> 12 = OP_TRAP ∧ 0xF024 &&& 0xFF = TRAP_PUTSP ∧
        (stringState 0x3010 [0x4948, 0x4100, 0x004A] []).reg R_R0 = 0x3010 ∧
        (stringState 0x3010 [0x4948, 0x4100, 0x004A] []).memory 0x3013 = 0) ∧
      (execute 0xF024 (stringState 0x3010 [0x4948, 0x4100, 0x004A] [])).output =
        [0x48, 0x49, 0x00, 0x41, 0x4A] :=
  have hwf : (stringState 0x3010 [0x4948, 0x4100, 0x004A] []).WF :=
    stringState_WF _ _ _ (by decide) (by decide) (by decide)
  ⟨⟨hwf, by decide, by decide, by decide, by decide⟩,
    (putsp_spec (stringState 0x3010 [0x4948, 0x4100, 0x004A] []) 0xF024 0x3013 hwf
      (by decide) (by decide) (by decide) (by decide) (by decide) (by decide)).1.trans
      (by decide)⟩

/-! ## The string traversal and the end of memory (C14) -/

/-- The `TRAP_PUTS` loop leaves the array when no zero word lies between the
start and the end of memory. -/
theorem putsLoop_overrun (memory : Nat → Nat) :
    ∀ (fuel addr : Nat), (∀ i, addr ≤ i → i < addr + fuel → memory i ≠ 0) →
      (putsLoop memory fuel addr).2 = false := by
  intro fuel
  induction fuel with
  | zero => intro addr _; rfl
  | succ f ih =>
    intro addr h
    have h0 : memory addr ≠ 0 := h addr (by omega) (by omega)
    simp only [putsLoop, h0, if_false]
    exact ih (addr + 1) (fun i h1 h2 => h i (by omega) (by omega))

/-- C14 (the code departs from it): with `R0 = 0xFFFF` and the nonzero word
`0x41` at `memory[0xFFFF]`, the pointer of TRAP PUTS (and of TRAP PUTSP) is
advanced by `++c` to `memory + 65536`, one past the array, and the next test
`*c` reads there; the pointer does not return to address `0`, where the zero
word `memory[0]` would end the string. -/
theorem puts_reads_past_memory :
    (stringState 0xFFFF [0x41] []).reg R_R0 = 0xFFFF ∧
    (stringState 0xFFFF [0x41] []).memory 0xFFFF = 0x41 ∧
    (stringState 0xFFFF [0x41] []).memory 0 = 0 ∧
    (stringState 0xFFFF [0x41] []).status = Status.running ∧
    putsLoop (stringState 0xFFFF [0x41] []).memory (MEMORY_MAX - 0xFFFF) 0xFFFF =
      ([0x41], false) ∧
    (execute 0xF022 (stringState 0xFFFF [0x41] [])).status = Status.outOfBounds ∧
    (execute 0xF024 (stringState 0xFFFF [0x41] [])).status = Status.outOfBounds := by
  decide

/-! ## Memory-mapped keyboard registers (C17) -/

/-- The part of C17 that the code does.  `memRead(a)` with `a != 0xFE00`
returns `memory[a]`, changes no memory word and consumes no input.
`memRead(0xFE00)` with a byte `c` pending on descriptor 0, `c` being the next
byte of the stream, sets `memory[0xFE00]` to `0x8000` and `memory[0xFE02]` to
`c`, consumes that byte, returns `0x8000` and changes no other word.
`memRead(0xFE00)` with no byte left at all on a descriptor that is not at end
of file sets `memory[0xFE00]` to `0`, leaves `memory[0xFE02]`, every other word
and the input unchanged, and returns `0`. -/
theorem memRead_polled (s : VM) :
    (∀ a, a ≠ MR_KBSR →
      (memRead a s).1 = s.memory a ∧
      (∀ b, (memRead a s).2.memory b = s.memory b) ∧
      (memRead a s).2.input = s.input) ∧
    (∀ c rest, s.input = c :: rest → c < 256 → s.buffered = 0 →
      (memRead MR_KBSR s).1 = 0x8000 ∧
      (memRead MR_KBSR s).2.memory MR_KBSR = 0x8000 ∧
      (memRead MR_KBSR s).2.memory MR_KBDR = c ∧
      (memRead MR_KBSR s).2.input = rest ∧
      (∀ b, b ≠ MR_KBSR → b ≠ MR_KBDR → (memRead MR_KBSR s).2.memory b = s.memory b)) ∧
    (s.input = [] → s.eof = false →
      (memRead MR_KBSR s).1 = 0 ∧
      (memRead MR_KBSR s).2.memory MR_KBSR = 0 ∧
      (memRead MR_KBSR s).2.memory MR_KBDR = s.memory MR_KBDR ∧
      (memRead MR_KBSR s).2.input = s.input ∧
      (∀ b, b ≠ MR_KBSR → (memRead MR_KBSR s).2.memory b = s.memory b)) := by
  refine ⟨?_, ?_, ?_⟩
  · intro a ha
    rw [memRead_plain a s ha]
    exact ⟨rfl, fun _ => rfl, rfl⟩
  · intro c rest hin hc hbuf
    have hu : toU16 ((c : Nat) : Int) = c := by
      unfold toU16
      have h : ((c : Int)) % 65536 = ((c : Nat) : Int) := by omega
      rw [h, Int.toNat_ofNat]
    have e : memRead MR_KBSR s =
        (0x8000, { s with memory := store (store s.memory MR_KBSR 0x8000) MR_KBDR c,
                          input := rest, buffered := rest.length }) := by
      simp [memRead, check_key, getchar, hin, hbuf, hu, store, MR_KBSR, MR_KBDR]
    rw [e]
    refine ⟨rfl, ?_, ?_, rfl, ?_⟩
    · simp [store, MR_KBSR, MR_KBDR]
    · simp [store]
    · intro b h1 h2
      simp [store, h1, h2]
  · intro hin heof
    have e : memRead MR_KBSR s = (0, { s with memory := store s.memory MR_KBSR 0 }) := by
      simp [memRead, check_key, hin, heof, store]
    rw [e]
    refine ⟨rfl, ?_, ?_, rfl, ?_⟩
    · simp [store]
    · simp [store, MR_KBSR, MR_KBDR]
    · intro b h1
      simp [store, h1]

/-- C17 (the code departs from it): `check_key` asks `select` about descriptor
0 while `getchar` reads through the stdio buffer.  With the two bytes `0x41`,
`0x42` pending on a terminal, the first `memRead(0xFE00)` returns `0x8000` and
latches `0x41`, and its `getchar` has moved both bytes into the buffer; the
second `memRead(0xFE00)` then finds nothing on the descriptor, sets
`memory[0xFE00]` to `0` and returns `0`, although the character `0x42` is
pending.  At end of file, with no character pending, `memRead(0xFE00)` sets
`memory[0xFE00]` to `0x8000`, returns `0x8000` and writes `0xFFFF` over
`memory[0xFE02]`. -/
theorem memRead_poll_misses :
    (stringState 0 [] [0x41, 0x42]).input = [0x41, 0x42] ∧
    (memRead MR_KBSR (stringState 0 [] [0x41, 0x42])).1 = 0x8000 ∧
    (memRead MR_KBSR (stringState 0 [] [0x41, 0x42])).2.memory MR_KBDR = 0x41 ∧
    (memRead MR_KBSR (stringState 0 [] [0x41, 0x42])).2.input = [0x42] ∧
    (memRead MR_KBSR (memRead MR_KBSR (stringState 0 [] [0x41, 0x42])).2).1 = 0 ∧
    (memRead MR_KBSR (memRead MR_KBSR (stringState 0 [] [0x41, 0x42])).2).2.memory MR_KBSR
      = 0 ∧
    (memRead MR_KBSR (memRead MR_KBSR (stringState 0 [] [0x41, 0x42])).2).2.memory MR_KBDR
      = 0x41 ∧
    (memRead MR_KBSR (memRead MR_KBSR (stringState 0 [] [0x41, 0x42])).2).2.input
      = [0x42] ∧
    eofState.input = [] ∧ eofState.memory MR_KBDR = 0 ∧
    (memRead MR_KBSR eofState).1 = 0x8000 ∧
    (memRead MR_KBSR eofState).2.memory MR_KBSR = 0x8000 ∧
    (memRead MR_KBSR eofState).2.memory MR_KBDR = 0xFFFF := by
  decide

/-! ## GETC and IN (C15) -/

/-- Conversion of a byte value to `uint16_t` keeps it. -/
theorem toU16_byte (b : Nat) (hb : b < 256) : toU16 ((b : Nat) : Int) = b := by
  unfold toU16
  have h : ((b : Int)) % 65536 = ((b : Nat) : Int) := by omega
  rw [h, Int.toNat_ofNat]

/-- The part of C15 about GETC: with a byte `b` queued, TRAP GETC (vector
`0x20`) leaves `R0 = b`, writes nothing, consumes the byte, and leaves the
flag of `b`: ZERO when `b = 0`, POSITIVE otherwise. -/
theorem getc_spec (s : VM) (instr b : Nat) (rest : List Nat) (hop : instr >>> 12 = OP_TRAP)
    (hv : instr &&& 0xFF = TRAP_GETC) (hin : s.input = b :: rest) (hb : b < 256) :
    (execute instr s).reg R_R0 = b ∧
    (execute instr s).output = s.output ∧
    (execute instr s).input = rest ∧
    (execute instr s).reg R_COND = (if b = 0 then FL_ZRO else FL_POS) := by
  rw [execute_TRAP instr s hop]
  simp only [opTRAP, hv, if_true, trapGETC]
  rw [getchar_cons ({ s with reg := store s.reg R_R7 (s.reg R_PC) } : VM) b rest hin]
  simp only [toU16_byte b hb]
  obtain ⟨h1, h2, _⟩ := writeback_spec
    { s with reg := store s.reg R_R7 (s.reg R_PC), input := rest,
             buffered := if s.buffered = 0 then rest.length else s.buffered - 1 }
    R_R0 b (by decide)
  refine ⟨h1, ?_, ?_, ?_⟩
  · rw [updateFlags_output]
  · rw [updateFlags_input]
  · rw [h2]
    have : ¬ 32768 ≤ b := by omega
    simp [this]

/-- The part of C15 about IN that the code does: with a byte `b < 128` queued,
TRAP IN (vector `0x23`) leaves `R0 = b`, writes the prompt followed by `b`,
and leaves the flag of `b`. -/
theorem in_spec_low (s : VM) (instr b : Nat) (rest : List Nat) (hop : instr >>> 12 = OP_TRAP)
    (hv : instr &&& 0xFF = TRAP_IN) (hin : s.input = b :: rest) (hb : b < 128) :
    (execute instr s).reg R_R0 = b ∧
    (execute instr s).output = s.output ++ promptBytes ++ [b] ∧
    (execute instr s).input = rest ∧
    (execute instr s).reg R_COND = (if b = 0 then FL_ZRO else FL_POS) := by
  have hc : toChar ((b : Nat) : Int) = ((b : Nat) : Int) := by
    unfold toChar; omega
  have hby : toByte ((b : Nat) : Int) = b := by
    unfold toByte
    have h : ((b : Int)) % 256 = ((b : Nat) : Int) := by omega
    rw [h, Int.toNat_ofNat]
  rw [execute_TRAP instr s hop]
  simp only [opTRAP, hv, trapIN, TRAP_IN, TRAP_GETC, TRAP_OUT, TRAP_PUTS,
    (by decide : ¬ (0x23 : Nat) = 0x20), (by decide : ¬ (0x23 : Nat) = 0x21),
    (by decide : ¬ (0x23 : Nat) = 0x22), if_false, if_true]
  rw [getchar_cons ({ s with reg := store s.reg R_R7 (s.reg R_PC),
                             output := s.output ++ promptBytes } : VM) b rest hin]
  simp only [hc, hby, toU16_byte b (by omega)]
  obtain ⟨h1, h2, _⟩ := writeback_spec
    { s with reg := store s.reg R_R7 (s.reg R_PC), input := rest,
             output := s.output ++ promptBytes ++ [b],
             buffered := if s.buffered = 0 then rest.length else s.buffered - 1 }
    R_R0 b (by decide)
  refine ⟨h1, ?_, ?_, ?_⟩
  · rw [updateFlags_output]
  · rw [updateFlags_input]
  · rw [h2]
    have : ¬ 32768 ≤ b := by omega
    simp [this]

/-- C15 (the code departs from it): with the byte `0x80` queued, TRAP GETC
leaves `R0 = 0x80` and the flag POSITIVE, but TRAP IN, which keeps the byte in
a `char` before storing it, leaves `R0 = 0xFF80` and the flag NEGATIVE; the
prompt and the byte `0x80` are written as the claim says. -/
theorem in_high_byte :
    (stringState 0 [] [0x80]).input = [0x80] ∧
    (execute 0xF020 (stringState 0 [] [0x80])).reg R_R0 = 0x80 ∧
    (execute 0xF020 (stringState 0 [] [0x80])).reg R_COND = FL_POS ∧
    (execute 0xF023 (stringState 0 [] [0x80])).reg R_R0 = 0xFF80 ∧
    (execute 0xF023 (stringState 0 [] [0x80])).reg R_COND = FL_NEG ∧
    (execute 0xF023 (stringState 0 [] [0x80])).output = promptBytes ++ [0x80] := by
  decide

/-! ## Invariants of the loop -/

theorem Preserved.refl (s : VM) : Preserved s s :=
  ⟨id, Or.inl rfl, Or.inl rfl⟩

theorem Preserved.trans {s t u : VM} (h1 : Preserved s t) (h2 : Preserved t u) :
    Preserved s u := by
  obtain ⟨a1, b1, c1⟩ := h1
  obtain ⟨a2, b2, c2⟩ := h2
  refine ⟨fun h => a2 (a1 h), ?_, ?_⟩
  · rcases b2 with h | h | h | h
    · rw [h]; exact b1
    · exact Or.inr (Or.inl h)
    · exact Or.inr (Or.inr (Or.inl h))
    · exact Or.inr (Or.inr (Or.inr h))
  · rcases c2 with h | h | h | h
    · rw [h]; exact c1
    · exact Or.inr (Or.inl h)
    · exact Or.inr (Or.inr (Or.inl h))
    · exact Or.inr (Or.inr (Or.inr h))

/-- Writing a 16-bit value to a register other than the condition register. -/
theorem pres_setReg (s : VM) (i v : Nat) (hi : i ≠ R_COND) (hv : s.WF → v < 65536) :
    Preserved s { s with reg := store s.reg i v } := by
  refine ⟨fun h => ⟨fun j => ?_, h.2.1, h.2.2⟩, Or.inl rfl, Or.inl ?_⟩
  · simp only [store]
    split
    · exact hv h
    · exact h.1 j
  · simp [store, Ne.symm hi]

/-- Writing a 16-bit value to a memory word. -/
theorem pres_setMem (s : VM) (a v : Nat) (hv : s.WF → v < 65536) :
    Preserved s { s with memory := store s.memory a v } := by
  refine ⟨fun h => ⟨h.1, fun j => ?_, h.2.2⟩, Or.inl rfl, Or.inl rfl⟩
  simp only [store]
  split
  · exact hv h
  · exact h.2.1 j

theorem pres_setOutput (s : VM) (o : List Nat) : Preserved s { s with output := o } :=
  ⟨fun h => h, Or.inl rfl, Or.inl rfl⟩

theorem pres_updateFlags (r : Nat) (s : VM) : Preserved s (updateFlags r s) := by
  refine ⟨fun h => ⟨fun j => ?_, ?_, ?_⟩, Or.inl (updateFlags_status r s), Or.inr ?_⟩
  · by_cases hj : j = R_COND
    · subst hj
      rw [updateFlags_cond]
      simp only [FL_ZRO, FL_NEG, FL_POS]
      split_ifs <;> omega
    · rw [updateFlags_reg r s j hj]
      exact h.1 j
  · intro a
    rw [updateFlags_memory]
    exact h.2.1 a
  · rw [updateFlags_input]
    exact h.2.2
  · rw [updateFlags_cond]
    split_ifs <;> simp

theorem toU16_lt (i : Int) : toU16 i < 65536 := by
  unfold toU16
  omega

theorem pres_getchar (s : VM) : Preserved s (getchar s).2 := by
  unfold LC3.getchar
  split
  · exact Preserved.refl s
  · next b rest hin =>
    refine ⟨fun h => ⟨h.1, h.2.1, fun c hc => h.2.2 c ?_⟩, Or.inl rfl, Or.inl rfl⟩
    rw [hin]
    exact List.mem_cons_of_mem _ hc

theorem pres_memRead (a : Nat) (s : VM) : Preserved s (memRead a s).2 := by
  unfold LC3.memRead
  simp only []
  split
  · split
    · exact Preserved.trans
        (Preserved.trans (pres_setMem s MR_KBSR (1 <<< 15) (fun _ => by decide))
          (pres_getchar _))
        (pres_setMem _ MR_KBDR _ (fun _ => toU16_lt _))
    · exact pres_setMem s MR_KBSR 0 (fun _ => by decide)
  · exact Preserved.refl s

/-- The word a read returns is a 16-bit value. -/
theorem memRead_lt (a : Nat) (s : VM) (h : s.WF) : (memRead a s).1 < 65536 :=
  ((pres_memRead a s).1 h).2.1 a

theorem memRead_reg (a : Nat) (s : VM) : (memRead a s).2.reg = s.reg := by
  unfold memRead
  simp only []
  split
  · split
    · simp [getchar_reg]
    · rfl
  · rfl

theorem pres_opADD (instr : Nat) (s : VM) : Preserved s (opADD instr s) := by
  unfold LC3.opADD
  simp only []
  split
  · exact (pres_setReg s _ _ (and7_ne_cond _) (fun _ => Nat.mod_lt _ (by decide))).trans
      (pres_updateFlags _ _)
  · exact (pres_setReg s _ _ (and7_ne_cond _) (fun _ => Nat.mod_lt _ (by decide))).trans
      (pres_updateFlags _ _)

theorem pres_opAND (instr : Nat) (s : VM) : Preserved s (opAND instr s) := by
  unfold LC3.opAND
  simp only []
  split
  · exact pres_setReg s _ _ (and7_ne_cond _) (fun _ => Nat.mod_lt _ (by decide))
  · exact pres_setReg s _ _ (and7_ne_cond _) (fun _ => Nat.mod_lt _ (by decide))

theorem pres_opNOT (instr : Nat) (s : VM) : Preserved s (opNOT instr s) :=
  (pres_setReg s _ _ (and7_ne_cond _) (fun _ => Nat.mod_lt _ (by decide))).trans
    (pres_updateFlags _ _)

theorem pres_opBR (instr : Nat) (s : VM) : Preserved s (opBR instr s) := by
  unfold LC3.opBR
  simp only []
  split
  · exact pres_setReg s _ _ (by decide) (fun _ => Nat.mod_lt _ (by decide))
  · exact Preserved.refl s

theorem pres_opJMP (instr : Nat) (s : VM) : Preserved s (opJMP instr s) :=
  pres_setReg s _ _ (by decide) (fun h => h.1 _)

theorem pres_opJSR (instr : Nat) (s : VM) : Preserved s (opJSR instr s) := by
  have h1 : Preserved s { s with reg := store s.reg R_R7 (s.reg R_PC) } :=
    pres_setReg s _ _ (by decide) (fun h => h.1 _)
  unfold LC3.opJSR
  simp only []
  split
  · exact h1.trans (pres_setReg _ _ _ (by decide) (fun _ => Nat.mod_lt _ (by decide)))
  · exact h1.trans (pres_setReg _ _ _ (by decide) (fun h => h.1 _))

/-- Loading the result of a read into a general register and setting the
flags from it. -/
theorem pres_loadFrom (a r0 : Nat) (s : VM) (h0 : r0 ≠ R_COND) :
    Preserved s (updateFlags r0
      { (memRead a s).2 with reg := store (memRead a s).2.reg r0 (memRead a s).1 }) := by
  refine (pres_memRead a s).trans ?_
  refine Preserved.trans ?_ (pres_updateFlags _ _)
  refine ⟨fun h => ⟨fun j => ?_, h.2.1, h.2.2⟩, Or.inl rfl, Or.inl ?_⟩
  · simp only [store]
    split
    · exact h.2.1 a
    · exact h.1 j
  · simp [store, Ne.symm h0]

theorem pres_opLD (instr : Nat) (s : VM) : Preserved s (opLD instr s) :=
  pres_loadFrom _ _ s (and7_ne_cond _)

theorem pres_opLDI (instr : Nat) (s : VM) : Preserved s (opLDI instr s) :=
  (pres_memRead _ s).trans (pres_loadFrom _ _ _ (and7_ne_cond _))

theorem pres_opLDR (instr : Nat) (s : VM) : Preserved s (opLDR instr s) :=
  pres_loadFrom _ _ s (and7_ne_cond _)

theorem pres_opLEA (instr : Nat) (s : VM) : Preserved s (opLEA instr s) :=
  (pres_setReg s _ _ (and7_ne_cond _) (fun _ => Nat.mod_lt _ (by decide))).trans
    (pres_updateFlags _ _)

theorem pres_opST (instr : Nat) (s : VM) : Preserved s (opST instr s) :=
  pres_setMem s _ _ (fun h => h.1 _)

theorem pres_opSTI (instr : Nat) (s : VM) : Preserved s (opSTI instr s) :=
  (pres_memRead _ s).trans (pres_setMem _ _ _ (fun h => h.1 _))

theorem pres_opSTR (instr : Nat) (s : VM) : Preserved s (opSTR instr s) :=
  pres_setMem s _ _ (fun h => h.1 _)

theorem pres_trapGETC (s : VM) : Preserved s (trapGETC s) :=
  (pres_getchar s).trans
    ((pres_setReg _ _ _ (by decide) (fun _ => toU16_lt _)).trans
      (pres_updateFlags _ _))

theorem pres_trapIN (s : VM) : Preserved s (trapIN s) :=
  (pres_setOutput s _).trans ((pres_getchar _).trans
    ((pres_setOutput _ _).trans
      ((pres_setReg _ _ _ (by decide) (fun _ => toU16_lt _)).trans
        (pres_updateFlags _ _))))

theorem pres_trapPUTS (s : VM) : Preserved s (trapPUTS s) := by
  unfold LC3.trapPUTS
  simp only []
  refine ⟨fun h => h, ?_, Or.inl rfl⟩
  split
  · exact Or.inl rfl
  · exact Or.inr (Or.inr (Or.inr rfl))

theorem pres_trapPUTSP (s : VM) : Preserved s (trapPUTSP s) := by
  unfold LC3.trapPUTSP
  simp only []
  refine ⟨fun h => h, ?_, Or.inl rfl⟩
  split
  · exact Or.inl rfl
  · exact Or.inr (Or.inr (Or.inr rfl))

theorem pres_opTRAP (instr : Nat) (s : VM) : Preserved s (opTRAP instr s) := by
  have h1 : Preserved s { s with reg := store s.reg R_R7 (s.reg R_PC) } :=
    pres_setReg s _ _ (by decide) (fun h => h.1 _)
  unfold LC3.opTRAP
  simp only []
  split_ifs
  · exact h1.trans (pres_trapGETC _)
  · exact h1.trans (pres_setOutput _ _)
  · exact h1.trans (pres_trapPUTS _)
  · exact h1.trans (pres_trapIN _)
  · exact h1.trans (pres_trapPUTSP _)
  · exact h1.trans ⟨fun h => h, Or.inr (Or.inl rfl), Or.inl rfl⟩
  · exact h1

/-- The opcode of a 16-bit word is one of `0..15`. -/
theorem opcode_lt (instr : Nat) (hi : instr < 65536) : instr >>> 12 < 16 := by
  rw [Nat.shiftRight_eq_div_pow]
  omega

/-- Every 16-bit instruction word is dispatched to one of the sixteen cases,
none of which is the `default` branch. -/
theorem pres_execute (instr : Nat) (s : VM) (hi : instr < 65536) :
    Preserved s (execute instr s) := by
  have hlt := opcode_lt instr hi
  generalize hop : instr >>> 12 = op at hlt
  have hab : Preserved s { s with status := Status.aborted } :=
    ⟨fun h => h, Or.inr (Or.inr (Or.inl rfl)), Or.inl rfl⟩
  interval_cases op
  · rw [execute_BR instr s hop]; exact pres_opBR instr s
  · rw [execute_ADD instr s hop]; exact pres_opADD instr s
  · rw [execute_LD instr s hop]; exact pres_opLD instr s
  · rw [execute_ST instr s hop]; exact pres_opST instr s
  · rw [execute_JSR instr s hop]; exact pres_opJSR instr s
  · rw [execute_AND instr s hop]; exact pres_opAND instr s
  · rw [execute_LDR instr s hop]; exact pres_opLDR instr s
  · rw [execute_STR instr s hop]; exact pres_opSTR instr s
  · have he : LC3.execute instr s = { s with status := Status.aborted } := by
      simp [LC3.execute, hop, OP_BR, OP_ADD, OP_LD, OP_ST, OP_JSR, OP_AND, OP_LDR, OP_STR,
        OP_RTI, OP_NOT, OP_LDI, OP_STI, OP_JMP, OP_RES, OP_LEA, OP_TRAP]
    rw [he]; exact hab
  · rw [execute_NOT instr s hop]; exact pres_opNOT instr s
  · rw [execute_LDI instr s hop]; exact pres_opLDI instr s
  · rw [execute_STI instr s hop]; exact pres_opSTI instr s
  · rw [execute_JMP instr s hop]; exact pres_opJMP instr s
  · have he : LC3.execute instr s = { s with status := Status.aborted } := by
      simp [LC3.execute, hop, OP_BR, OP_ADD, OP_LD, OP_ST, OP_JSR, OP_AND, OP_LDR, OP_STR,
        OP_RTI, OP_NOT, OP_LDI, OP_STI, OP_JMP, OP_RES, OP_LEA, OP_TRAP]
    rw [he]; exact hab
  · rw [execute_LEA instr s hop]; exact pres_opLEA instr s
  · rw [execute_TRAP instr s hop]; exact pres_opTRAP instr s

/-- The fetch keeps the invariants, and the word fetched is a 16-bit value. -/
theorem pres_fetch (s : VM) : Preserved s (fetch s).2 :=
  (pres_setReg s R_PC _ (by decide) (fun _ => Nat.mod_lt _ (by decide))).trans
    (pres_memRead _ _)

theorem fetch_lt (s : VM) (h : s.WF) : (fetch s).1 < 65536 :=
  memRead_lt _ _
    ((pres_setReg s R_PC _ (by decide) (fun _ => Nat.mod_lt _ (by decide))).1 h)

/-- One round of the loop from a well-formed state. -/
theorem pres_cycle (s : VM) (h : s.WF) : Preserved s (cycle s) :=
  (pres_fetch s).trans (pres_execute _ _ (fetch_lt s h))

/-- Any number of rounds of the loop from a well-formed state. -/
theorem pres_run (n : Nat) : ∀ s : VM, s.WF → Preserved s (run n s) := by
  induction n with
  | zero => intro s _; exact Preserved.refl s
  | succ n ih =>
    intro s h
    simp only [LC3.run]
    split
    · exact (pres_cycle s h).trans (ih _ ((pres_cycle s h).1 h))
    · exact Preserved.refl s

/-! ## Well-formedness of the loaded state -/

/-- The state `main` enters the loop with has the condition register at `0`,
whatever the image and the input: `reg` is zero-initialised and only
`reg[R_PC]` is assigned before the loop. -/
theorem boot_cond (file input : List Nat) (s : VM) (h : boot file input = some s) :
    s.reg R_COND = 0 ∧ s.reg R_PC = 0x3000 ∧ s.status = Status.running := by
  unfold boot at h
  cases hr : readImageFile file (startState input) with
  | none => simp [hr] at h
  | some t =>
    have ht : t.reg = (startState input).reg ∧ t.status = (startState input).status := by
      unfold readImageFile at hr
      split at hr
      · simp only [] at hr
        split at hr
        · simp at hr
        · simp only [Option.some.injEq] at hr
          rw [← hr]
          exact ⟨rfl, rfl⟩
      · simp at hr
    simp only [hr, Option.map_some', Option.some.injEq] at h
    rw [← h]
    simp [ht.1, ht.2, startState, store, R_COND, R_PC]

/-- The words `fread` stores from bytes are 16-bit values. -/
theorem freadWords_lt (count : Nat) :
    ∀ (memory : Nat → Nat) (p : Nat) (bytes : List Nat),
      (∀ a, memory a < 65536) → (∀ b ∈ bytes, b < 256) →
      ∀ a, (freadWords memory p count bytes).1 a < 65536 := by
  induction count with
  | zero =>
    intro memory p bytes hm _ a
    simp only [freadWords]
    exact hm a
  | succ c ih =>
    intro memory p bytes hm hb a
    match bytes, hb with
    | [], _ => simp only [freadWords]; exact hm a
    | [_], _ => simp only [freadWords]; exact hm a
    | b0 :: b1 :: rest, hb =>
      simp only [freadWords]
      apply ih
      · intro j
        simp only [store]
        split
        · have h0 := hb b0 (by simp)
          have h1 := hb b1 (by simp)
          omega
        · exact hm j
      · intro b hin
        exact hb b (by simp [hin])

/-- The byte-swap loop keeps the words 16-bit values. -/
theorem swapLoop_lt (memory : Nat → Nat) (p n : Nat) (hm : ∀ a, memory a < 65536) :
    ∀ a, swapLoop memory p n a < 65536 := by
  intro a
  rw [swapLoop_spec]
  split
  · exact Nat.mod_lt _ (by decide)
  · exact hm a

/-- The state `main` enters the loop with is well formed when the image file
and the input are sequences of bytes. -/
theorem boot_WF (file input : List Nat) (s : VM) (h : boot file input = some s)
    (hfile : ∀ b ∈ file, b < 256) (hinput : ∀ b ∈ input, b < 256) : s.WF := by
  unfold boot at h
  cases hr : readImageFile file (startState input) with
  | none => simp [hr] at h
  | some t =>
    have hstart : (startState input).WF :=
      ⟨fun _ => by simp [startState], fun _ => by simp [startState], hinput⟩
    have ht : t.WF := by
      unfold readImageFile at hr
      split at hr
      · next b0 b1 rest =>
        simp only [] at hr
        split at hr
        · simp at hr
        · simp only [Option.some.injEq] at hr
          rw [← hr]
          refine ⟨hstart.1, ?_, hstart.2.2⟩
          apply swapLoop_lt
          apply freadWords_lt _ _ _ _ hstart.2.1
          intro b hin
          exact hfile b (by simp [hin])
      · simp at hr
    simp only [hr, Option.map_some', Option.some.injEq] at h
    rw [← h]
    exact (pres_setReg t R_PC 0x3000 (by decide) (fun _ => by decide)).1 ht

/-! ## The default branch of the dispatch (C19) -/

/-- Parts of the loop body never produce the status of the `default` branch. -/
theorem pres_not_badOpcode {s t : VM} (h : Preserved s t)
    (hst : s.status ≠ Status.badOpcode) : t.status ≠ Status.badOpcode := by
  rcases h.2.1 with h | h | h | h <;> rw [h]
  · exact hst
  · decide
  · decide
  · decide

/-- C19: for a 16-bit instruction word the opcode `instr >> 12` is one of
`0..15` and the word is dispatched to the case of that opcode (the cases of RES
and RTI abort), so the `default` branch is not taken: the status after the
instruction is not `badOpcode`, and from a well-formed state no number of
rounds of the loop reaches it, in particular none from the state `main`
enters the loop with, whatever the image file and the input. -/
theorem default_unreachable (s : VM) (instr : Nat) (hi : instr < 65536) (hwf : s.WF)
    (hst : s.status ≠ Status.badOpcode) :
    instr >>> 12 < 16 ∧
    ((instr >>> 12 = OP_BR ∧ execute instr s = opBR instr s) ∨
      (instr >>> 12 = OP_ADD ∧ execute instr s = opADD instr s) ∨
      (instr >>> 12 = OP_LD ∧ execute instr s = opLD instr s) ∨
      (instr >>> 12 = OP_ST ∧ execute instr s = opST instr s) ∨
      (instr >>> 12 = OP_JSR ∧ execute instr s = opJSR instr s) ∨
      (instr >>> 12 = OP_AND ∧ execute instr s = opAND instr s) ∨
      (instr >>> 12 = OP_LDR ∧ execute instr s = opLDR instr s) ∨
      (instr >>> 12 = OP_STR ∧ execute instr s = opSTR instr s) ∨
      (instr >>> 12 = OP_RTI ∧ execute instr s = { s with status := Status.aborted }) ∨
      (instr >>> 12 = OP_NOT ∧ execute instr s = opNOT instr s) ∨
      (instr >>> 12 = OP_LDI ∧ execute instr s = opLDI instr s) ∨
      (instr >>> 12 = OP_STI ∧ execute instr s = opSTI instr s) ∨
      (instr >>> 12 = OP_JMP ∧ execute instr s = opJMP instr s) ∨
      (instr >>> 12 = OP_RES ∧ execute instr s = { s with status := Status.aborted }) ∨
      (instr >>> 12 = OP_LEA ∧ execute instr s = opLEA instr s) ∨
      (instr >>> 12 = OP_TRAP ∧ execute instr s = opTRAP instr s)) ∧
    (execute instr s).status ≠ Status.badOpcode ∧
    (∀ n, (run n s).status ≠ Status.badOpcode) ∧
    (∀ file input s0, (∀ b ∈ file, b < 256) → (∀ b ∈ input, b < 256) →
      boot file input = some s0 → ∀ n, (run n s0).status ≠ Status.badOpcode) := by
  have hboot : ∀ file input s0, (∀ b ∈ file, b < 256) → (∀ b ∈ input, b < 256) →
      boot file input = some s0 → ∀ n, (run n s0).status ≠ Status.badOpcode := by
    intro file input s0 hf hin hb n
    refine pres_not_badOpcode (pres_run n s0 (boot_WF file input s0 hb hf hin)) ?_
    rw [(boot_cond file input s0 hb).2.2]
    decide
  refine ⟨opcode_lt instr hi, ?_, pres_not_badOpcode (pres_execute instr s hi) hst,
    fun n => pres_not_badOpcode (pres_run n s hwf) hst, hboot⟩
  have hlt := opcode_lt instr hi
  have hab : ∀ op, instr >>> 12 = op → (op = OP_RTI ∨ op = OP_RES) →
      execute instr s = { s with status := Status.aborted } := by
    intro op hop h
    rcases h with h | h <;> subst h <;>
      simp [execute, hop, OP_BR, OP_ADD, OP_LD, OP_ST, OP_JSR, OP_AND, OP_LDR, OP_STR,
        OP_RTI, OP_NOT, OP_LDI, OP_STI, OP_JMP, OP_RES, OP_LEA, OP_TRAP]
  generalize hop : instr >>> 12 = op at hlt
  interval_cases op
  · exact Or.inl ⟨rfl, execute_BR instr s hop⟩
  · exact Or.inr (Or.inl ⟨rfl, execute_ADD instr s hop⟩)
  · exact Or.inr (Or.inr (Or.inl ⟨rfl, execute_LD instr s hop⟩))
  · exact Or.inr (Or.inr (Or.inr (Or.inl ⟨rfl, execute_ST instr s hop⟩)))
  · exact Or.inr (Or.inr (Or.inr (Or.inr (Or.inl ⟨rfl, execute_JSR instr s hop⟩))))
  · exact Or.inr (Or.inr (Or.inr (Or.inr (Or.inr (Or.inl ⟨rfl, execute_AND instr s hop⟩)))))
  · exact Or.inr (Or.inr (Or.inr (Or.inr (Or.inr (Or.inr
      (Or.inl ⟨rfl, execute_LDR instr s hop⟩))))))
  · exact Or.inr (Or.inr (Or.inr (Or.inr (Or.inr (Or.inr (Or.inr
      (Or.inl ⟨rfl, execute_STR instr s hop⟩)))))))
  · exact Or.inr (Or.inr (Or.inr (Or.inr (Or.inr (Or.inr (Or.inr (Or.inr
      (Or.inl ⟨rfl, hab 8 hop (Or.inl rfl)⟩))))))))
  · exact Or.inr (Or.inr (Or.inr (Or.inr (Or.inr (Or.inr (Or.inr (Or.inr (Or.inr
      (Or.inl ⟨rfl, execute_NOT instr s hop⟩)))))))))
  · exact Or.inr (Or.inr (Or.inr (Or.inr (Or.inr (Or.inr (Or.inr (Or.inr (Or.inr (Or.inr
      (Or.inl ⟨rfl, execute_LDI instr s hop⟩))))))))))
  · exact Or.inr (Or.inr (Or.inr (Or.inr (Or.inr (Or.inr (Or.inr (Or.inr (Or.inr (Or.inr
      (Or.inr (Or.inl ⟨rfl, execute_STI instr s hop⟩)))))))))))
  · exact Or.inr (Or.inr (Or.inr (Or.inr (Or.inr (Or.inr (Or.inr (Or.inr (Or.inr (Or.inr
      (Or.inr (Or.inr (Or.inl ⟨rfl, execute_JMP instr s hop⟩))))))))))))
  · exact Or.inr (Or.inr (Or.inr (Or.inr (Or.inr (Or.inr (Or.inr (Or.inr (Or.inr (Or.inr
      (Or.inr (Or.inr (Or.inr (Or.inl ⟨rfl, hab 13 hop (Or.inr rfl)⟩)))))))))))))
  · exact Or.inr (Or.inr (Or.inr (Or.inr (Or.inr (Or.inr (Or.inr (Or.inr (Or.inr (Or.inr
      (Or.inr (Or.inr (Or.inr (Or.inr (Or.inl ⟨rfl, execute_LEA instr s hop⟩))))))))))))))
  · exact Or.inr (Or.inr (Or.inr (Or.inr (Or.inr (Or.inr (Or.inr (Or.inr (Or.inr (Or.inr
      (Or.inr (Or.inr (Or.inr (Or.inr (Or.inr ⟨rfl, execute_TRAP instr s hop⟩))))))))))))))

theorem default_unreachable_witness :
    (0xF025 < 65536 ∧ (regState 0 FL_ZRO).WF ∧
        (regState 0 FL_ZRO).status ≠ Status.badOpcode) ∧
      0xF025 >>> 12 < 16 ∧ (execute 0xF025 (regState 0 FL_ZRO)).status ≠ Status.badOpcode :=
  have hwf : (regState 0 FL_ZRO).WF := by
    refine ⟨fun i => ?_, fun a => by simp [regState, startState], by simp [regState, startState]⟩
    simp only [regState, store, R_R0, R_COND, FL_ZRO]
    split_ifs <;> omega
  have h := default_unreachable (regState 0 FL_ZRO) 0xF025 (by decide) hwf (by decide)
  ⟨⟨by decide, hwf, by decide⟩, h.1, h.2.2.1⟩

/-! ## The condition register over a run (C16) -/

/-- The condition register in every state of a run from a well-formed state:
the value it started with, or one of the three flags. -/
theorem run_cond (s : VM) (hwf : s.WF) (n : Nat) :
    (run n s).reg R_COND = s.reg R_COND ∨ (run n s).reg R_COND = FL_POS ∨
      (run n s).reg R_COND = FL_ZRO ∨ (run n s).reg R_COND = FL_NEG :=
  (pres_run n s hwf).2.2

/-- In every state the loop reaches from the state `main` enters it with, the
condition register holds `0` or one of the three flags. -/
theorem boot_run_cond (file input : List Nat) (s0 : VM) (hf : ∀ b ∈ file, b < 256)
    (hin : ∀ b ∈ input, b < 256) (hb : boot file input = some s0) (n : Nat) :
    (run n s0).reg R_COND = 0 ∨ (run n s0).reg R_COND = FL_POS ∨
      (run n s0).reg R_COND = FL_ZRO ∨ (run n s0).reg R_COND = FL_NEG := by
  have h := run_cond s0 (boot_WF file input s0 hb hf hin) n
  rw [(boot_cond file input s0 hb).1] at h
  exact h

/-- C16 (the code departs from it): `main` never assigns `reg[R_COND]` before
the loop, so in the initial state of the three-word program the condition
register holds `0`, which is none of POSITIVE (1), ZERO (2), NEGATIVE (4), and
it still holds `0` after the first instruction `AND R0,R0,#0`.  With the image
that starts with `BRnzp #1`, whose mask names all three flags, the branch is
not taken in the first round: the program counter goes to `0x3001`. -/
theorem cond_initially_unset :
    (boot (imageBytes 0x3000 [0x5020, 0x1025, 0xF025]) []).map (fun s => s.reg R_COND)
      = some 0 ∧
    (run 0 demoState).reg R_COND = 0 ∧
    (run 1 demoState).reg R_COND = 0 ∧
    (run 1 demoState).status = Status.running ∧
    (0 ≠ FL_POS ∧ 0 ≠ FL_ZRO ∧ 0 ≠ FL_NEG) ∧
    branchFirstState.memory 0x3000 = 0x0E01 ∧
    (run 1 branchFirstState).reg R_PC = 0x3001 := by
  decide

/-! ## Reserved opcodes over a whole round of the loop (C11) -/

theorem memRead_output (a : Nat) (s : VM) : (memRead a s).2.output = s.output := by
  unfold memRead
  simp only []
  split
  · split
    · simp [getchar_output]
    · rfl
  · rfl

theorem memRead_status (a : Nat) (s : VM) : (memRead a s).2.status = s.status := by
  unfold memRead
  simp only []
  split
  · split
    · simp [getchar_status]
    · rfl
  · rfl

/-- The fetch writes no register but the program counter. -/
theorem fetch_reg (s : VM) (i : Nat) (hi : i ≠ R_PC) : (fetch s).2.reg i = s.reg i := by
  unfold fetch
  rw [memRead_reg]
  exact store_other _ _ _ _ hi

/-- The fetch writes nothing to the output. -/
theorem fetch_output (s : VM) : (fetch s).2.output = s.output := by
  unfold fetch
  rw [memRead_output]

/-- C11 (as amended): for every machine state, with the program counter at
`a`, in which the fetched instruction word has the opcode bits of RES (1101)
or RTI (1000), one round of the loop ends with the process aborted: the loop
performs no further round whatever the fuel, the program counter has advanced
to `(a + 1) mod 2^16`, no other register and not the condition register is
changed, and nothing is written to the output; when `a` is not the keyboard
status address `0xFE00`, the word fetched is `memory[a]`, no memory word is
changed and no input is consumed. -/
theorem reserved_cycle_spec (s : VM) (a : Nat) (hpc : s.reg R_PC = a)
    (hop : (fetch s).1 >>> 12 = OP_RES ∨ (fetch s).1 >>> 12 = OP_RTI) :
    (cycle s).status = Status.aborted ∧
    (∀ n, run n (cycle s) = cycle s) ∧
    (cycle s).reg R_PC = (a + 1) % 65536 ∧
    (∀ i, i ≠ R_PC → (cycle s).reg i = s.reg i) ∧
    (cycle s).output = s.output ∧
    (a ≠ MR_KBSR →
      (fetch s).1 = s.memory a ∧
      (∀ b, (cycle s).memory b = s.memory b) ∧
      (cycle s).input = s.input) := by
  have hpc2 : (fetch s).2.reg R_PC = (a + 1) % 65536 := by rw [fetch_pc, hpc]
  obtain ⟨h1, h2, h3, h4, h5, h6, h7⟩ := reserved_switch (fetch s).2 (fetch s).1 a hop hpc2
  have hc : cycle s = execute (fetch s).1 (fetch s).2 := rfl
  rw [hc]
  refine ⟨h1, h2, h3, ?_, ?_, ?_⟩
  · intro i hi
    rw [h4, fetch_reg s i hi]
  · rw [h6, fetch_output]
  · intro ha
    have hf := fetch_plain s (by rw [hpc]; exact ha)
    refine ⟨?_, ?_, ?_⟩
    · rw [hf, hpc]
    · intro b
      rw [h5, hf]
    · rw [h7, hf]

theorem reserved_cycle_spec_witness :
    (reservedState.reg R_PC = 0x3000 ∧
        ((fetch reservedState).1 >>> 12 = OP_RES ∨ (fetch reservedState).1 >>> 12 = OP_RTI) ∧
        0x3000 ≠ MR_KBSR) ∧
      (cycle reservedState).status = Status.aborted ∧
      (cycle reservedState).reg R_PC = (0x3000 + 1) % 65536 ∧
      (fetch reservedState).1 = 0xD000 :=
  have h := reserved_cycle_spec reservedState 0x3000 (by decide) (Or.inl (by decide))
  ⟨⟨by decide, Or.inl (by decide), by decide⟩, h.1, h.2.2.1,
    (h.2.2.2.2.2 (by decide)).1.trans (by decide)⟩

/-- C11 as first stated fails: with the program counter at `0xFE00` and the key
`0x41` pending, the fetch polls the keyboard, writes `0x8000` to
`memory[0xFE00]` and `0x41` to `memory[0xFE02]`, consumes the key and returns
`0x8000`, a word with the opcode bits of RTI; the round ends aborted with two
memory words changed and the input consumed. -/
theorem reserved_cycle_counterexample :
    pollState.reg R_PC = MR_KBSR ∧
    (fetch pollState).1 = 0x8000 ∧
    (fetch pollState).1 >>> 12 = OP_RTI ∧
    (cycle pollState).status = Status.aborted ∧
    (cycle pollState).memory MR_KBSR = 0x8000 ∧
    (cycle pollState).memory MR_KBSR ≠ pollState.memory MR_KBSR ∧
    (cycle pollState).memory MR_KBDR = 0x41 ∧
    (cycle pollState).memory MR_KBDR ≠ pollState.memory MR_KBDR ∧
    pollState.input = [0x41] ∧
    (cycle pollState).input = [] := by
  decide

end LC3
